import Mathlib

/-!
Verification of the per-frame parameter pipeline of the Live2D bridge
(`live2DBridge.cpp`).  The C++ source is shallowly embedded: each C++
function relevant to a claim is translated into a Lean definition over
exact arithmetic (`ℚ` for the pure float arithmetic, `ℝ` where the code
uses transcendental functions), and the claims are settled as theorems
about these definitions.
-/

namespace Live2D

/-! ## Motion curves (`MotionKeyframe`, `MotionCurve`, `evaluateMotionCurve`) -/

/-- `struct MotionKeyframe { float time; float value; }`. -/
structure MotionKeyframe where
  time : ℚ
  value : ℚ
deriving DecidableEq, Repr

/-- `struct MotionCurve { std::string paramId; std::vector<MotionKeyframe> keyframes; }`. -/
structure MotionCurve where
  paramId : String
  keyframes : List MotionKeyframe
deriving DecidableEq, Repr

/-- The interpolation fraction of `evaluateMotionCurve`:
`float frac = (t1 > t0) ? (t - t0) / (t1 - t0) : 0.f;`. -/
def lerpFrac (t t0 t1 : ℚ) : ℚ :=
  if t0 < t1 then (t - t0) / (t1 - t0) else 0

/-- The interpolation step of `evaluateMotionCurve`:
`return v0 + (v1 - v0) * frac;`. -/
def kfInterp (k0 k1 : MotionKeyframe) (t : ℚ) : ℚ :=
  k0.value + (k1.value - k0.value) * lerpFrac t k0.time k1.time

/-- The scan loop of `evaluateMotionCurve`
(`for i in 1..n-1: if (t <= keyframes[i].time) { interpolate i-1, i }`),
with `k0` the keyframe preceding the remaining list; when the list is
exhausted the function returns the last keyframe's value. -/
def evalSegments (k0 : MotionKeyframe) : List MotionKeyframe → ℚ → ℚ
  | [], _ => k0.value
  | k1 :: rest, t => if t ≤ k1.time then kfInterp k0 k1 t else evalSegments k1 rest t

/-- `evaluateMotionCurve(const MotionCurve& c, float t)` from
`live2DBridge.cpp` lines 479-492. -/
def evaluateMotionCurve (c : MotionCurve) (t : ℚ) : ℚ :=
  match c.keyframes with
  | [] => 0
  | k :: ks =>
    if t ≤ k.time then k.value
    else if ((k :: ks).getLast (by simp)).time ≤ t then ((k :: ks).getLast (by simp)).value
    else evalSegments k ks t

/-- Keyframe times strictly increasing (the data model requires time-ordered
keyframes; duplicates are undefined behavior). -/
def strictlySorted (ks : List MotionKeyframe) : Prop :=
  List.Chain' (fun a b => a.time < b.time) ks

/-- Executable check for `strictlySorted`. -/
def strictlySortedB : List MotionKeyframe → Bool
  | [] => true
  | [_] => true
  | a :: b :: rest => if a.time < b.time then strictlySortedB (b :: rest) else false

/-- Junk default used with `List.getD`; never reached under the stated
bounds hypotheses. -/
def kfDefault : MotionKeyframe := ⟨0, 0⟩

/-- `normalizePhysInput` from `live2DBridge.cpp` lines 665-676, stated over an
arbitrary linear ordered field so it can be used both at `ℚ` (for the exact
arithmetic claims) and at `ℝ` (inside the physics step).  `diff` is
`val - pDef`; the float literal `0.0001f` is the rational `1/10000`. -/
def normalizePhysInput {α : Type} [LinearOrderedField α]
    (val pMin pMax pDef nMin nDef nMax : α) : α :=
  if 1/10000 < val - pDef then
    (if 1/10000 < pMax - pDef then nDef + (val - pDef) / (pMax - pDef) * (nMax - nDef)
     else nMax)
  else if val - pDef < -(1/10000) then
    (if 1/10000 < pDef - pMin then nDef + (val - pDef) / (pDef - pMin) * (nDef - nMin)
     else nMin)
  else nDef

/-! ## Expression layer (`ExprBlend`, `ExpressionData`, expression state) -/

/-- `enum class ExprBlend { Add, Multiply, Overwrite }`. -/
inductive ExprBlend
  | addMode
  | multiplyMode
  | overwriteMode
deriving DecidableEq, Repr

/-- `struct ExprParam { std::string paramId; float value; ExprBlend blend; }`. -/
structure ExprParam where
  paramId : String
  value : ℚ
  blend : ExprBlend
deriving DecidableEq, Repr

/-- `struct ExpressionData { std::string name; std::vector<ExprParam> params; }`. -/
structure ExpressionData where
  name : String
  params : List ExprParam
deriving DecidableEq, Repr

/-- The mutable expression globals `g_currentExpressionId`,
`g_expressionFadeWeight`, `g_expressionFadingIn`. -/
structure ExprState where
  currentExpressionId : String
  fadeWeight : ℚ
  fadingIn : Bool
deriving DecidableEq, Repr

/-- `g_expressionFadeSpeed = 3.f` (never reassigned). -/
def expressionFadeSpeed : ℚ := 3

/-- `std::map` lookup by string key (`find` + end-check), as an association
list search. -/
def mapFind {β : Type} : List (String × β) → String → Option β
  | [], _ => none
  | (k0, v) :: rest, k => if k0 = k then some v else mapFind rest k

/-! ## Motion layer state and `L2DBridge_StartMotion` -/

/-- `struct MotionData` (duration, loop, fade times, curves). -/
structure MotionData where
  duration : ℚ
  loop : Bool
  fadeInTime : ℚ
  fadeOutTime : ℚ
  curves : List MotionCurve
deriving DecidableEq, Repr

/-- The mutable active-motion globals `g_hasActiveMotion`, `g_activeMotion`,
`g_activeMotionTime`, `g_activeMotionPriority`. -/
structure MotionState where
  hasActiveMotion : Bool
  activeMotion : MotionData
  activeMotionTime : ℚ
  activeMotionPriority : ℤ
deriving DecidableEq, Repr

/-- `L2DBridge_StartMotion` (`live2DBridge.cpp` lines 1658-1692).
`group = none` models a null `group` pointer.  `resolved` abstracts the
group-map lookup, index range check, motion file read and
`parseMotion3Json`: `none` when any of those fail (the function returns with
no state change), `some m` for the parsed motion.  Note the source assigns
`g_activeMotion = parseMotion3Json(mj)` before the empty-curves check, which
is reproduced here. -/
def startMotion (loaded : Bool) (group : Option String) (st : MotionState)
    (resolved : Option MotionData) (priority : ℤ) : MotionState :=
  if loaded = false ∨ group = none then st
  else if st.hasActiveMotion = true ∧ priority < st.activeMotionPriority then st
  else
    match resolved with
    | none => st
    | some m =>
      if m.curves = [] then { st with activeMotion := m }
      else
        { hasActiveMotion := true, activeMotion := m, activeMotionTime := 0,
          activeMotionPriority := priority }

/-! ## Parameter store view and getters -/

/-- The parts of `Live2DModel` that the parameter getters and the external
override channel read: the loaded flag, the name-to-handle map
`parameterMap`, and the Cubism core parameter arrays. -/
structure ParamModel where
  loaded : Bool
  parameterMap : List (String × ℤ)
  values : List ℚ
  minimums : List ℚ
  maximums : List ℚ
deriving DecidableEq, Repr

/-- `L2DBridge_GetParameterValue` (`live2DBridge.cpp` lines 1728-1734);
`none` models a null `paramId` pointer. -/
def getParameterValue (m : ParamModel) (paramId : Option String) : ℚ :=
  if m.loaded = false ∨ paramId = none then 0
  else
    match paramId with
    | none => 0
    | some pid =>
      match mapFind m.parameterMap pid with
      | none => 0
      | some idx => m.values.getD idx.toNat 0

/-- `L2DBridge_GetParameterRange` (`live2DBridge.cpp` lines 1736-1745). -/
def getParameterRange (m : ParamModel) (paramId : Option String) : ℚ :=
  if m.loaded = false ∨ paramId = none then 1
  else
    match paramId with
    | none => 1
    | some pid =>
      match mapFind m.parameterMap pid with
      | none => 1
      | some idx => m.maximums.getD idx.toNat 0 - m.minimums.getD idx.toNat 0

/-! ## Pose layer (`updatePose`, `live2DBridge.cpp` lines 366-391) -/

/-- `struct PosePartInfo` after load-time resolution: the resolved part index
(`-1` when the id did not resolve) and the resolved link part indices. -/
structure PosePartInfo where
  partIndex : ℤ
  linkIndices : List ℤ
deriving DecidableEq, Repr

/-- `POSE_FADE_SPEED = 5.0f` (opacity change per second, a fixed constant). -/
def poseFadeSpeed : ℚ := 5

/-- Read `partOpacities[z]`. -/
def opGet (ops : List ℚ) (z : ℤ) : ℚ := ops.getD z.toNat 0

/-- Write `partOpacities[z] = v` (callers only pass resolved, in-range
indices; out-of-range writes would be undefined behavior in the source and
are embedded as no-ops). -/
def opSet (ops : List ℚ) (z : ℤ) (v : ℚ) : List ℚ :=
  if 0 ≤ z then ops.set z.toNat v else ops

/-- `opacity += dt * POSE_FADE_SPEED; if (opacity > 1.f) opacity = 1.f;` -/
def poseRise (dt o : ℚ) : ℚ :=
  if 1 < o + dt * poseFadeSpeed then 1 else o + dt * poseFadeSpeed

/-- `opacity -= dt * POSE_FADE_SPEED; if (opacity < 0.f) opacity = 0.f;` -/
def poseFall (dt o : ℚ) : ℚ :=
  if o - dt * poseFadeSpeed < 0 then 0 else o - dt * poseFadeSpeed

/-- The dominant-member scan of `updatePose`: starting from
`maxOpacity = 0, dominantIdx = 0`, members with unresolved part index are
skipped, and a member becomes dominant only when its opacity is strictly
greater than the running maximum (ties keep the earlier index). -/
def poseDomAux (ops : List ℚ) : List PosePartInfo → ℕ → ℚ → ℕ → ℕ
  | [], _, _, best => best
  | mem :: rest, i, maxOp, best =>
    if mem.partIndex < 0 then poseDomAux ops rest (i + 1) maxOp best
    else
      if maxOp < opGet ops mem.partIndex then
        poseDomAux ops rest (i + 1) (opGet ops mem.partIndex) i
      else poseDomAux ops rest (i + 1) maxOp best

/-- The dominant member index of one pose group for this frame. -/
def poseDominant (group : List PosePartInfo) (ops : List ℚ) : ℕ :=
  poseDomAux ops group 0 0 0

/-- The update loop of `updatePose` over one group: the dominant member's
opacity rises toward 1, every other member's opacity falls toward 0, each
clamped to `[0,1]`; linked parts then copy their owner's opacity. -/
def poseApplyAux (dt : ℚ) (dom : ℕ) : List PosePartInfo → ℕ → List ℚ → List ℚ
  | [], _, ops => ops
  | mem :: rest, i, ops =>
    if mem.partIndex < 0 then poseApplyAux dt dom rest (i + 1) ops
    else
      let o2 := if i = dom then poseRise dt (opGet ops mem.partIndex)
                else poseFall dt (opGet ops mem.partIndex)
      let ops2 := opSet ops mem.partIndex o2
      let ops3 := mem.linkIndices.foldl (fun a li => opSet a li o2) ops2
      poseApplyAux dt dom rest (i + 1) ops3

/-- One frame of `updatePose` for one pose group (`live2DBridge.cpp`
lines 370-390): derive the dominant member from current opacities, then
update every member. -/
def updatePoseGroup (dt : ℚ) (group : List PosePartInfo) (ops : List ℚ) :
    List ℚ :=
  poseApplyAux dt (poseDominant group ops) group 0 ops

/-- One frame of `updatePose` over all groups. -/
def updatePose (dt : ℚ) (groups : List (List PosePartInfo)) (ops : List ℚ) :
    List ℚ :=
  groups.foldl (fun a g => updatePoseGroup dt g a) ops

/-- A fully resolved pose member for part index `i`, with no linked parts. -/
def idMember (i : ℕ) : PosePartInfo := ⟨(i : ℤ), []⟩

/-- A fully resolved pose group whose `n` members map to part indices
`0, …, n-1` in order, with no linked parts. -/
def idGroup (n : ℕ) : List PosePartInfo :=
  (List.range n).map idMember

/-- The crossfade limit: opacity 1 at the dominant index `j`, 0 elsewhere. -/
def poseTarget (j n : ℕ) : List ℚ :=
  (List.range n).map (fun i => if i = j then 1 else 0)

/-- Derived closed form of the opacities after `k` pose frames with dominant
index `j` and per-frame opacity step `d` (established below, not part of the
source embedding): the dominant opacity is `min 1 (o + k·d)` and every other
opacity is `max 0 (o - k·d)`, written with the source's clamp conditionals. -/
def poseFormula (ops : List ℚ) (j : ℕ) (d : ℚ) (k q : ℕ) : ℚ :=
  if q = j then
    (if 1 < ops.getD q 0 + (k : ℚ) * d then 1 else ops.getD q 0 + (k : ℚ) * d)
  else
    (if ops.getD q 0 - (k : ℚ) * d < 0 then 0 else ops.getD q 0 - (k : ℚ) * d)

/-! ## Physics simulation (`updatePhysics`, `live2DBridge.cpp` lines 706-805)

The particle integration uses `sinf/cosf/atan2f/sqrtf`, so this part of the
embedding lives over `ℝ` (noncomputable, with `Real.sin` etc.); the pure
float arithmetic is idealized as exact real arithmetic as elsewhere. -/

/-- `struct PhysVec2 { float x = 0, y = 0; }`. -/
structure PhysVec2 where
  x : ℝ
  y : ℝ

/-- `struct PhysParticle` — mutable simulation state of one particle. -/
structure PhysParticle where
  position : PhysVec2
  lastPosition : PhysVec2
  velocity : PhysVec2
  force : PhysVec2
  lastGravity : PhysVec2
  mobility : ℝ
  delay : ℝ
  acceleration : ℝ
  radius : ℝ

/-- `struct PhysInput` after load-time resolution (`sourceIdx = -1` when the
source parameter name did not resolve); `type` is 0 for linear (X) inputs and
1 for angular inputs. -/
structure PhysInput where
  sourceIdx : ℤ
  weight : ℝ
  type : ℕ
  reflect : Bool

/-- `struct PhysNorm` — the sub-rig normalization ranges. -/
structure PhysNorm where
  posMin : ℝ
  posDef : ℝ
  posMax : ℝ
  angMin : ℝ
  angDef : ℝ
  angMax : ℝ

/-- One `PhysSubRig` (inputs, particle chain, normalization); outputs do not
affect particle state and are not needed for the particle-distance claim. -/
structure PhysSubRig where
  inputs : List PhysInput
  particles : List PhysParticle
  norm : PhysNorm

/-- The Cubism parameter arrays read by `updatePhysics`. -/
structure PhysParams where
  values : List ℝ
  defaults : List ℝ
  minimums : List ℝ
  maximums : List ℝ

/-- Junk default particle for `List.getD`; never reached under the stated
bounds hypotheses. -/
noncomputable def pDefault : PhysParticle :=
  ⟨⟨0, 0⟩, ⟨0, 0⟩, ⟨0, 0⟩, ⟨0, 0⟩, ⟨0, 0⟩, 1, 1, 1, 0⟩

/-- C `atan2f(y, x)` over the reals (value in `(-π, π]`, `atan2(0,0) = 0`). -/
noncomputable def atan2 (y x : ℝ) : ℝ :=
  if 0 < x then Real.arctan (y / x)
  else if x < 0 then
    (if 0 ≤ y then Real.arctan (y / x) + Real.pi
     else Real.arctan (y / x) - Real.pi)
  else
    (if 0 < y then Real.pi / 2 else if y < 0 then -(Real.pi / 2) else 0)

/-- The angle-normalization loops of `directionToRadian`
(`while (r < -π) r += 2π; while (r > π) r -= 2π;`): the input is a difference
of two `atan2` values, each in `(-π, π]`, so it lies in `(-2π, 2π)` and each
loop body executes at most once; the loops are therefore embedded as single
conditionals. -/
noncomputable def normRadian (r : ℝ) : ℝ :=
  let r1 := if r < -Real.pi then r + 2 * Real.pi else r
  if Real.pi < r1 then r1 - 2 * Real.pi else r1

/-- `directionToRadian` (`live2DBridge.cpp` lines 656-663). -/
noncomputable def directionToRadian (vFrom vTo : PhysVec2) : ℝ :=
  normRadian (atan2 vTo.y vTo.x - atan2 vFrom.y vFrom.x)

/-- The input-aggregation loop of `updatePhysics`
(`live2DBridge.cpp` lines 717-732): unresolved or out-of-range source handles
contribute nothing; each input is normalized into the sub-rig's angular or
positional range, negated if `reflect`, weighted by `weight/100`, and summed
into `(totalAngle, totalTx)`. -/
noncomputable def aggregateInputs (pr : PhysParams) (sub : PhysSubRig) :
    ℝ × ℝ :=
  sub.inputs.foldl
    (fun acc inp =>
      if inp.sourceIdx < 0 ∨ (pr.values.length : ℤ) ≤ inp.sourceIdx then acc
      else
        let normalized :=
          if inp.type = 1 then
            normalizePhysInput (pr.values.getD inp.sourceIdx.toNat 0)
              (pr.minimums.getD inp.sourceIdx.toNat 0)
              (pr.maximums.getD inp.sourceIdx.toNat 0)
              (pr.defaults.getD inp.sourceIdx.toNat 0)
              sub.norm.angMin sub.norm.angDef sub.norm.angMax
          else
            normalizePhysInput (pr.values.getD inp.sourceIdx.toNat 0)
              (pr.minimums.getD inp.sourceIdx.toNat 0)
              (pr.maximums.getD inp.sourceIdx.toNat 0)
              (pr.defaults.getD inp.sourceIdx.toNat 0)
              sub.norm.posMin sub.norm.posDef sub.norm.posMax
        let normalized2 := if inp.reflect then -normalized else normalized
        if inp.type = 1 then (acc.1 + normalized2 * (inp.weight / 100), acc.2)
        else (acc.1, acc.2 + normalized2 * (inp.weight / 100)))
    (0, 0)

/-- The unit gravity direction derived from the accumulated angle
(`live2DBridge.cpp` lines 738-739): `(sin(totalRad), cos(totalRad))` with
`totalRad = totalAngle · π / 180`. -/
noncomputable def subRigGrav (pr : PhysParams) (sub : PhysSubRig) : PhysVec2 :=
  ⟨Real.sin ((aggregateInputs pr sub).1 * Real.pi / 180),
   Real.cos ((aggregateInputs pr sub).1 * Real.pi / 180)⟩

/-- The integration part of the per-particle update
(`live2DBridge.cpp` lines 745-762): arm vector from the updated parent,
rotated by the gravity-direction delta over the air-resistance divisor
(`AIR_RES = 5.0f`), plus `velocity·delay` and `force·delay²`
(`delay = particle.delay · dt · 30`). -/
noncomputable def integStep (w g : PhysVec2) (dt : ℝ) (prev : PhysVec2)
    (p : PhysParticle) : PhysVec2 :=
  let fx := g.x * p.acceleration + w.x
  let fy := g.y * p.acceleration + w.y
  let delay := p.delay * dt * 30
  let dirx := p.position.x - prev.x
  let diry := p.position.y - prev.y
  let rad := directionToRadian p.lastGravity g / 5
  let rx := Real.cos rad * dirx - Real.sin rad * diry
  let ry := Real.sin rad * dirx + Real.cos rad * diry
  ⟨prev.x + rx + p.velocity.x * delay + fx * delay * delay,
   prev.y + ry + p.velocity.y * delay + fy * delay * delay⟩

/-- The post-integration distance to the updated parent
(`live2DBridge.cpp` lines 764-766). -/
noncomputable def preDist (w g : PhysVec2) (dt : ℝ) (prev : PhysVec2)
    (p : PhysParticle) : ℝ :=
  Real.sqrt
    (((integStep w g dt prev p).x - prev.x) * ((integStep w g dt prev p).x - prev.x) +
     ((integStep w g dt prev p).y - prev.y) * ((integStep w g dt prev p).y - prev.y))

/-- The constraint re-projection (`live2DBridge.cpp` lines 767-770): only
when the post-integration distance exceeds `0.0001` is the particle pulled
back onto its configured radius from the parent; otherwise the position is
left as integrated (degeneracy fallback). -/
noncomputable def projectedPos (w g : PhysVec2) (dt : ℝ) (prev : PhysVec2)
    (p : PhysParticle) : PhysVec2 :=
  if 1/10000 < preDist w g dt prev p then
    ⟨prev.x + ((integStep w g dt prev p).x - prev.x) / preDist w g dt prev p * p.radius,
     prev.y + ((integStep w g dt prev p).y - prev.y) / preDist w g dt prev p * p.radius⟩
  else integStep w g dt prev p

/-- The whole per-particle update (`live2DBridge.cpp` lines 741-777):
integration, re-projection, the near-zero x snap
(`if (fabsf(p.position.x) < 0.001f) p.position.x = 0.f`), the velocity
recomputation from the positional delta (guarded by `delay > 0.0001`), and
the gravity-direction store. -/
noncomputable def updateParticle (w g : PhysVec2) (dt : ℝ) (prev : PhysVec2)
    (p : PhysParticle) : PhysParticle :=
  let fx := g.x * p.acceleration + w.x
  let fy := g.y * p.acceleration + w.y
  let saved := p.position
  let delay := p.delay * dt * 30
  let pp := projectedPos w g dt prev p
  let px3 := if |pp.x| < 1/1000 then 0 else pp.x
  { p with
    position := ⟨px3, pp.y⟩,
    velocity :=
      ⟨(if 1/10000 < delay then (px3 - saved.x) / delay * p.mobility
        else p.velocity.x),
       (if 1/10000 < delay then (pp.y - saved.y) / delay * p.mobility
        else p.velocity.y)⟩,
    force := ⟨fx, fy⟩,
    lastGravity := g }

/-- The non-root particle loop (`for (size_t i = 1; ...)`) — each particle is
updated against its already updated parent. -/
noncomputable def updateChain (w g : PhysVec2) (dt : ℝ) :
    PhysVec2 → List PhysParticle → List PhysParticle
  | _, [] => []
  | prev, p :: ps =>
    let p2 := updateParticle w g dt prev p
    p2 :: updateChain w g dt p2.position ps

/-- The particle part of one `updatePhysics` frame for one sub-rig
(`live2DBridge.cpp` lines 716-778): aggregate the inputs, set the root
particle's horizontal position to the accumulated linear total, derive the
gravity direction from the accumulated angle, then update the chain outward
from the root.  Sub-rigs with no particles are skipped. -/
noncomputable def stepSubRigParticles (pr : PhysParams) (w : PhysVec2)
    (dt : ℝ) (sub : PhysSubRig) : List PhysParticle :=
  match sub.particles with
  | [] => []
  | root :: rest =>
    let root2 := { root with
      position := ⟨(aggregateInputs pr sub).2, root.position.y⟩ }
    root2 :: updateChain w (subRigGrav pr sub) dt root2.position rest

/-- Euclidean distance between two particle positions. -/
noncomputable def physDist (a b : PhysVec2) : ℝ :=
  Real.sqrt ((a.x - b.x) * (a.x - b.x) + (a.y - b.y) * (a.y - b.y))

/-- Concrete root particle used in the C2 witness and counterexample rigs. -/
noncomputable def wRoot : PhysParticle :=
  ⟨⟨0, 0⟩, ⟨0, 0⟩, ⟨0, 0⟩, ⟨0, 0⟩, ⟨0, 1⟩, 1, 1, 1, 0⟩

/-- Concrete resting chain particle (radius 1, one unit above the root,
zero velocity, zero acceleration). -/
noncomputable def wP1 : PhysParticle :=
  ⟨⟨0, 1⟩, ⟨0, 1⟩, ⟨0, 0⟩, ⟨0, 0⟩, ⟨0, 1⟩, 1, 1, 0, 1⟩

/-- Concrete chain particle with downward velocity `(0, -2)` and
acceleration 1: one step from the constraint-satisfying state
(distance = radius = 1) lands it exactly on its parent. -/
noncomputable def cP1 : PhysParticle :=
  ⟨⟨0, 1⟩, ⟨0, 1⟩, ⟨0, -2⟩, ⟨0, 0⟩, ⟨0, 1⟩, 1, 1, 1, 1⟩

/-- Sub-rig for the C2 witness: no inputs, two particles at rest. -/
noncomputable def wSub : PhysSubRig :=
  ⟨[], [wRoot, wP1], ⟨-10, 0, 10, -10, 0, 10⟩⟩

/-- Sub-rig for the C2 counterexample: no inputs, the moving particle. -/
noncomputable def cSub : PhysSubRig :=
  ⟨[], [wRoot, cP1], ⟨-10, 0, 10, -10, 0, 10⟩⟩

/-- Empty parameter arrays (the witness rigs read no parameters). -/
def wParams : PhysParams := ⟨[], [], [], []⟩

/-! ## Renderer draw order (`DSortInfo`, the sort in `renderModel`) -/

/-- The drawable sort of `renderModel` (`live2DBridge.cpp` lines 1447-1451):
`std::sort(sorted.begin(), sorted.end(), [](a, b){ return a.order < b.order; })`
over `DSortInfo { index, order }` pairs built from `renderOrders[i]` at each
original index `i`.  The C++ standard specifies `std::sort` exactly up to:
the result is a permutation of the input that is sorted with respect to the
comparator; the relative order of elements with equivalent keys is
unspecified (`std::sort` is not stable).  `validDrawOrder orders l` therefore
holds iff `l` is a possible resulting index sequence for render-order keys
`orders`. -/
def validDrawOrder (orders : List ℤ) (l : List ℕ) : Prop :=
  l.Perm (List.range orders.length) ∧
  l.Pairwise (fun a b => orders.getD a 0 ≤ orders.getD b 0)

/-! ## External override channel (`g_externalOverrides`) -/

/-- `g_externalOverrides.erase(key)`: the override map
(`std::map<int, std::pair<float,float>>`) is embedded as a key-sorted,
duplicate-free association list. -/
def ovErase (k : ℤ) : List (ℤ × ℚ × ℚ) → List (ℤ × ℚ × ℚ)
  | [] => []
  | e :: rest => if e.1 = k then rest else e :: ovErase k rest

/-- `g_externalOverrides[key] = {value, weight}`: sorted insert-or-assign. -/
def ovInsert (k : ℤ) (vw : ℚ × ℚ) : List (ℤ × ℚ × ℚ) → List (ℤ × ℚ × ℚ)
  | [] => [(k, vw)]
  | e :: rest =>
    if k < e.1 then (k, vw) :: e :: rest
    else if k = e.1 then (k, vw) :: rest
    else e :: ovInsert k vw rest

/-- `L2DBridge_SetParameterValue` (`live2DBridge.cpp` lines 1647-1656):
resolves the name, then a weight below `0.001` removes any stored override,
otherwise the override is stored. -/
def setParameterValue (m : ParamModel) (ovr : List (ℤ × ℚ × ℚ))
    (paramId : Option String) (value weight : ℚ) : List (ℤ × ℚ × ℚ) :=
  if m.loaded = false ∨ paramId = none then ovr
  else
    match paramId with
    | none => ovr
    | some pid =>
      match mapFind m.parameterMap pid with
      | none => ovr
      | some idx =>
        if weight < 1/1000 then ovErase idx ovr
        else ovInsert idx (value, weight) ovr

/-- One iteration of the override-application loop in `renderModel`
(`live2DBridge.cpp` lines 1418-1425): in-range handles only; weight ≥ 1 sets
the value outright, otherwise the current value is linearly interpolated
toward the override value. -/
def applyOverride1 (params : List ℚ) (e : ℤ × ℚ × ℚ) : List ℚ :=
  if 0 ≤ e.1 ∧ e.1 < (params.length : ℤ) then
    params.set e.1.toNat
      (if 1 ≤ e.2.2 then e.2.1
       else params.getD e.1.toNat 0 * (1 - e.2.2) + e.2.1 * e.2.2)
  else params

/-- The whole override-application loop (`std::map` iteration is in ascending
key order; the embedded list is kept in that order). -/
def applyOverrides (ovr : List (ℤ × ℚ × ℚ)) (params : List ℚ) : List ℚ :=
  ovr.foldl applyOverride1 params

/-- The order of the per-frame parameter pass in `renderModel`
(`live2DBridge.cpp` lines 1330-1428): parameter reset plus idle/active motion
(`motionStage`), then the expression blend (`exprStage`), then
`updatePhysics` (`physicsStage`), then — last, before `csmUpdateModel` — the
external overrides.  The three earlier stages are abstracted as functions on
the parameter array; the claim under verification is about the override
stage's position and effect. -/
def frameParameterPass (motionStage exprStage physicsStage : List ℚ → List ℚ)
    (ovr : List (ℤ × ℚ × ℚ)) (params : List ℚ) : List ℚ :=
  applyOverrides ovr (physicsStage (exprStage (motionStage params)))

/-- The expression fade-advance step of `renderModel`
(`live2DBridge.cpp` lines 1378-1391): runs only when a current expression id
is set and resolves in `g_expressions`; increments the fade weight while
fading in (clamping at 1), decrements it while fading out (clamping at 0 and
clearing the current id when it reaches 0). -/
def advanceExpression (exprs : List (String × ExpressionData)) (dt : ℚ)
    (st : ExprState) : ExprState :=
  if st.currentExpressionId = "" then st
  else
    match mapFind exprs st.currentExpressionId with
    | none => st
    | some _ =>
      if st.fadingIn then
        let w := st.fadeWeight + dt * expressionFadeSpeed
        { st with fadeWeight := if 1 ≤ w then 1 else w }
      else
        let w := st.fadeWeight - dt * expressionFadeSpeed
        if w ≤ 0 then { st with fadeWeight := 0, currentExpressionId := "" }
        else { st with fadeWeight := w }

/-- `L2DBridge_SetExpression` (`live2DBridge.cpp` lines 1694-1715).
`none` models a null `expressionId` pointer. -/
def setExpression (exprs : List (String × ExpressionData))
    (expressionId : Option String) (st : ExprState) : ExprState :=
  match expressionId with
  | none => st
  | some exprId =>
    if exprId = "" then
      (if st.currentExpressionId ≠ "" then { st with fadingIn := false } else st)
    else
      match mapFind exprs exprId with
      | none => st
      | some _ =>
        let st1 :=
          if exprId ≠ st.currentExpressionId then
            { st with currentExpressionId := exprId, fadeWeight := 0 }
          else st
        { st1 with fadingIn := true }

lemma strictlySortedB_iff : ∀ ks, strictlySortedB ks = true ↔ strictlySorted ks := by
  intro ks
  induction ks with
  | nil => simp [strictlySortedB, strictlySorted]
  | cons a rest ih =>
    cases rest with
    | nil => simp [strictlySortedB, strictlySorted]
    | cons b rest2 =>
      unfold strictlySortedB
      unfold strictlySorted
      rw [List.chain'_cons]
      by_cases h : a.time < b.time <;> simp [h, ih, strictlySorted]

instance (ks : List MotionKeyframe) : Decidable (strictlySorted ks) :=
  decidable_of_iff _ (strictlySortedB_iff ks)

lemma chain_lt_head_getLast (k : MotionKeyframe) (ks : List MotionKeyframe)
    (h : List.Chain' (fun a b => a.time < b.time) (k :: ks)) (hne : ks ≠ []) :
    k.time < ((k :: ks).getLast (by simp)).time := by
  induction ks generalizing k with
  | nil => exact absurd rfl hne
  | cons k1 rest ih =>
    rcases List.chain'_cons.mp h with ⟨h01, hrest⟩
    rcases eq_or_ne rest [] with hr | hr
    · subst hr; simpa using h01
    · have hlt := ih k1 hrest hr
      have hlast : ((k :: k1 :: rest).getLast (by simp)) = ((k1 :: rest).getLast (by simp)) :=
        List.getLast_cons (by simp)
      rw [hlast]
      exact lt_trans h01 hlt

lemma chain_lt_getD (ks : List MotionKeyframe)
    (h : List.Chain' (fun a b => a.time < b.time) ks) :
    ∀ i j, i < j → j < ks.length →
      (ks.getD i kfDefault).time < (ks.getD j kfDefault).time := by
  intro i j hij hj
  haveI : IsTrans MotionKeyframe (fun a b => a.time < b.time) :=
    ⟨fun _ _ _ hab hbc => lt_trans hab hbc⟩
  have hp : List.Pairwise (fun a b => a.time < b.time) ks :=
    List.chain'_iff_pairwise.mp h
  have := List.pairwise_iff_get.mp hp ⟨i, lt_trans hij hj⟩ ⟨j, hj⟩ hij
  simpa [List.getD_eq_getElem?_getD, List.getElem?_eq_getElem, lt_trans hij hj, hj,
    List.get_eq_getElem] using this

/-- The scan lemma: if all keyframes before index `i` (in `ks`) are strictly
before `t` and `t ≤ (ks[i]).time`, the scan interpolates between the bracketing
pair. -/
lemma evalSegments_bracket :
    ∀ (ks : List MotionKeyframe) (k0 : MotionKeyframe) (t : ℚ) (i : ℕ),
      k0.time < t → i < ks.length →
      (∀ j, j < i → (ks.getD j kfDefault).time < t) →
      t ≤ (ks.getD i kfDefault).time →
      evalSegments k0 ks t =
        kfInterp (if i = 0 then k0 else ks.getD (i - 1) kfDefault)
          (ks.getD i kfDefault) t := by
  intro ks
  induction ks with
  | nil => intro k0 t i _ hi; simp at hi
  | cons k1 rest ih =>
    intro k0 t i h0 hi hbefore hat
    cases i with
    | zero =>
      simp only [List.getD_cons_zero] at hat
      simp [evalSegments, hat]
    | succ j =>
      have h1 : k1.time < t := by simpa using hbefore 0 (Nat.succ_pos j)
      have hnot : ¬ t ≤ k1.time := not_le.mpr h1
      simp only [evalSegments, hnot, if_false]
      have := ih k1 t j h1 (by simpa using hi)
        (fun j' hj' => by simpa using hbefore (j' + 1) (Nat.succ_lt_succ hj'))
        (by simpa using hat)
      rw [this]
      congr 1
      cases j with
      | zero => simp
      | succ j' => simp

lemma bracket_prev_eq (k : MotionKeyframe) (ks : List MotionKeyframe) (i : ℕ) :
    (if i = 0 then k else ks.getD (i - 1) kfDefault) = (k :: ks).getD i kfDefault := by
  cases i <;> simp

lemma kfInterp_at_right (k0 k1 : MotionKeyframe) (h : k0.time < k1.time) :
    kfInterp k0 k1 k1.time = k1.value := by
  unfold kfInterp lerpFrac
  rw [if_pos h, div_self (ne_of_gt (sub_pos.mpr h))]
  ring

lemma getLast_eq_getD (l : List MotionKeyframe) (h : l ≠ []) :
    l.getLast h = l.getD (l.length - 1) kfDefault := by
  have hlt : l.length - 1 < l.length :=
    Nat.sub_lt (List.length_pos.mpr h) one_pos
  rw [List.getLast_eq_getElem]
  simp [List.getD_eq_getElem?_getD, List.getElem?_eq_getElem, hlt]

lemma evaluateMotionCurve_cons (pid : String) (k : MotionKeyframe)
    (ks : List MotionKeyframe) (t : ℚ) :
    evaluateMotionCurve ⟨pid, k :: ks⟩ t =
      if t ≤ k.time then k.value
      else if ((k :: ks).getLast (by simp)).time ≤ t then ((k :: ks).getLast (by simp)).value
      else evalSegments k ks t := rfl

/-- C4: for every motion curve with at least 2 strictly time-ordered keyframes
and every time `t`: `evaluateMotionCurve` returns the first keyframe's value
when `t` is at or before the first keyframe time, the last keyframe's value
when `t` is at or after the last keyframe time, exactly the keyframe's value
when `t` equals a keyframe time, and the linear interpolation of the
bracketing keyframes otherwise; the interpolation fraction is defined as `0`
when the bracketing keyframes have equal times (no division by zero). -/
theorem evaluateCurve_spec (c : MotionCurve) (t : ℚ)
    (hlen : 2 ≤ c.keyframes.length) (hs : strictlySorted c.keyframes) :
    (t ≤ (c.keyframes.getD 0 kfDefault).time →
      evaluateMotionCurve c t = (c.keyframes.getD 0 kfDefault).value) ∧
    ((c.keyframes.getD (c.keyframes.length - 1) kfDefault).time ≤ t →
      evaluateMotionCurve c t = (c.keyframes.getD (c.keyframes.length - 1) kfDefault).value) ∧
    (∀ i, i < c.keyframes.length → t = (c.keyframes.getD i kfDefault).time →
      evaluateMotionCurve c t = (c.keyframes.getD i kfDefault).value) ∧
    (∀ i, i + 1 < c.keyframes.length →
      (c.keyframes.getD i kfDefault).time < t →
      t < (c.keyframes.getD (i + 1) kfDefault).time →
      evaluateMotionCurve c t =
        kfInterp (c.keyframes.getD i kfDefault) (c.keyframes.getD (i + 1) kfDefault) t) ∧
    (∀ u t0 t1 : ℚ, t1 = t0 → lerpFrac u t0 t1 = 0) := by
  obtain ⟨pid, l⟩ := c
  dsimp only at *
  cases l with
  | nil => simp at hlen
  | cons k ks =>
  cases ks with
  | nil => simp at hlen
  | cons k1 ks1 =>
  set ks := k1 :: ks1 with hks
  have hksne : ks ≠ [] := by simp [hks]
  have hchain : List.Chain' (fun a b => a.time < b.time) (k :: ks) := hs
  have hIf := evaluateMotionCurve_cons pid k ks t
  have hlastD : ((k :: ks).getLast (by simp)) =
      (k :: ks).getD ((k :: ks).length - 1) kfDefault := getLast_eq_getD _ (by simp)
  have hheadlast : k.time < ((k :: ks).getD ((k :: ks).length - 1) kfDefault).time := by
    rw [← hlastD]; exact chain_lt_head_getLast k ks hchain hksne
  have hA : t ≤ k.time → evaluateMotionCurve ⟨pid, k :: ks⟩ t = k.value := by
    intro h; rw [hIf, if_pos h]
  have hB : ((k :: ks).getD ((k :: ks).length - 1) kfDefault).time ≤ t →
      evaluateMotionCurve ⟨pid, k :: ks⟩ t =
      ((k :: ks).getD ((k :: ks).length - 1) kfDefault).value := by
    intro h
    have hkt : ¬ t ≤ k.time := not_le.mpr (lt_of_lt_of_le hheadlast h)
    rw [hIf, if_neg hkt, if_pos (by rw [hlastD]; exact h), hlastD]
  refine ⟨by simpa using hA, by simpa using hB, ?_, ?_, ?_⟩
  · -- exact keyframe value
    intro i hi hti
    rcases Nat.eq_zero_or_pos i with h0 | hpos
    · subst h0
      simp only [List.getD_cons_zero] at hti ⊢
      exact hA (le_of_eq hti)
    rcases eq_or_lt_of_le (Nat.le_sub_one_of_lt hi) with hlast | hmid
    · -- last keyframe
      rw [hlast] at hti ⊢
      exact hB (le_of_eq hti.symm)
    · -- middle keyframe: the scan interpolates with fraction 1
      have hkt : k.time < t := by
        rw [hti]
        have := chain_lt_getD (k :: ks) hchain 0 i hpos hi
        simpa using this
      have hlt_last : t < ((k :: ks).getD ((k :: ks).length - 1) kfDefault).time := by
        rw [hti]
        exact chain_lt_getD (k :: ks) hchain i ((k :: ks).length - 1) hmid
          (Nat.sub_lt (by simp) one_pos)
      rw [hIf, if_neg (not_le.mpr hkt), if_neg (by rw [hlastD]; exact not_le.mpr hlt_last)]
      have hi1 : i - 1 < ks.length := by
        have : i < (k :: ks).length := hi
        simp only [List.length_cons] at this
        omega
      have hbr := evalSegments_bracket ks k t (i - 1) hkt hi1
        (fun j hj => by
          have hj1 : j + 1 < i := by omega
          have := chain_lt_getD (k :: ks) hchain (j + 1) i hj1 hi
          rw [← hti] at this
          simpa using this)
        (by
          have : ks.getD (i - 1) kfDefault = (k :: ks).getD i kfDefault := by
            cases i with
            | zero => omega
            | succ i' => simp
          rw [this, ← hti])
      rw [hbr, bracket_prev_eq]
      have hieq : ks.getD (i - 1) kfDefault = (k :: ks).getD i kfDefault := by
        cases i with
        | zero => omega
        | succ i' => simp
      rw [hieq]
      have hplt : ((k :: ks).getD (i - 1) kfDefault).time <
          ((k :: ks).getD i kfDefault).time :=
        chain_lt_getD (k :: ks) hchain (i - 1) i (by omega) hi
      rw [hti]
      exact kfInterp_at_right _ _ hplt
  · -- strict bracket: linear interpolation
    intro i hi1 hlo hhi
    have hkt : k.time < t := by
      rcases Nat.eq_zero_or_pos i with h0 | hpos
      · subst h0; simpa using hlo
      · have := chain_lt_getD (k :: ks) hchain 0 i hpos (by omega)
        have hk0 : (k :: ks).getD 0 kfDefault = k := by simp
        rw [hk0] at this
        exact lt_trans this hlo
    have hlt_last : t < ((k :: ks).getD ((k :: ks).length - 1) kfDefault).time := by
      rcases eq_or_lt_of_le (Nat.le_sub_one_of_lt hi1) with hl | hl
      · rw [← hl]; exact hhi
      · exact lt_trans hhi
          (chain_lt_getD (k :: ks) hchain (i + 1) ((k :: ks).length - 1) hl
            (Nat.sub_lt (by simp) one_pos))
    rw [hIf, if_neg (not_le.mpr hkt), if_neg (by rw [hlastD]; exact not_le.mpr hlt_last)]
    have hilen : i < ks.length := by
      have : i + 1 < (k :: ks).length := hi1
      simp only [List.length_cons] at this
      omega
    have hbr := evalSegments_bracket ks k t i hkt hilen
      (fun j hj => by
        have hco : (k :: ks).getD (j + 1) kfDefault = ks.getD j kfDefault := by simp
        rw [← hco]
        by_cases hc : j + 1 < i
        · exact lt_trans (chain_lt_getD (k :: ks) hchain (j + 1) i hc (by omega)) hlo
        · have hje : j + 1 = i := by omega
          rw [hje]; exact hlo)
      (by
        have : ks.getD i kfDefault = (k :: ks).getD (i + 1) kfDefault := by simp
        rw [this]; exact le_of_lt hhi)
    rw [hbr, bracket_prev_eq]
    have : ks.getD i kfDefault = (k :: ks).getD (i + 1) kfDefault := by simp
    rw [this]
  · intro u t0 t1 h
    simp [lerpFrac, h]

/-- Witness for C4 at a concrete curve and time. -/
theorem evaluateCurve_spec_witness :
    evaluateMotionCurve ⟨"ParamA", [⟨0, 0⟩, ⟨1, 2⟩, ⟨3, 1⟩]⟩ 1 = 2 := by
  have h := evaluateCurve_spec ⟨"ParamA", [⟨0, 0⟩, ⟨1, 2⟩, ⟨3, 1⟩]⟩ 1
    (by decide) (by decide)
  exact h.2.2.1 1 (by decide) (by decide)

/-- C9: the physics input normalization is total (no division by zero, no
NaN/Inf over exact arithmetic): a source value within `0.0001` of the
parameter default yields the normalization default; a degenerate positive
(resp. negative) parameter range yields the normalization maximum
(resp. minimum) boundary value; and in each dividing branch the divisor is
provably nonzero. -/
theorem normalizePhysInput_safe (val pMin pMax pDef nMin nDef nMax : ℚ) :
    (-(1/10000) ≤ val - pDef → val - pDef ≤ 1/10000 →
      normalizePhysInput val pMin pMax pDef nMin nDef nMax = nDef) ∧
    (1/10000 < val - pDef → pMax - pDef ≤ 1/10000 →
      normalizePhysInput val pMin pMax pDef nMin nDef nMax = nMax) ∧
    (val - pDef < -(1/10000) → pDef - pMin ≤ 1/10000 →
      normalizePhysInput val pMin pMax pDef nMin nDef nMax = nMin) ∧
    (1/10000 < val - pDef → 1/10000 < pMax - pDef →
      normalizePhysInput val pMin pMax pDef nMin nDef nMax =
        nDef + (val - pDef) / (pMax - pDef) * (nMax - nDef) ∧ pMax - pDef ≠ 0) ∧
    (val - pDef < -(1/10000) → 1/10000 < pDef - pMin →
      normalizePhysInput val pMin pMax pDef nMin nDef nMax =
        nDef + (val - pDef) / (pDef - pMin) * (nDef - nMin) ∧ pDef - pMin ≠ 0) := by
  refine ⟨?_, ?_, ?_, ?_, ?_⟩
  · intro h1 h2
    unfold normalizePhysInput
    rw [if_neg (not_lt.mpr h2), if_neg (not_lt.mpr (neg_le.mp (neg_le.mpr h1)))]
  · intro h1 h2
    unfold normalizePhysInput
    rw [if_pos h1, if_neg (not_lt.mpr h2)]
  · intro h1 h2
    unfold normalizePhysInput
    rw [if_neg (not_lt.mpr (le_of_lt (lt_trans h1 (by norm_num)))), if_pos h1,
      if_neg (not_lt.mpr h2)]
  · intro h1 h2
    unfold normalizePhysInput
    rw [if_pos h1, if_pos h2]
    exact ⟨rfl, ne_of_gt (lt_trans (by norm_num) h2)⟩
  · intro h1 h2
    unfold normalizePhysInput
    rw [if_neg (not_lt.mpr (le_of_lt (lt_trans h1 (by norm_num)))), if_pos h1, if_pos h2]
    exact ⟨rfl, ne_of_gt (lt_trans (by norm_num) h2)⟩

/-- Witness for C9 on concrete degenerate and regular ranges. -/
theorem normalizePhysInput_safe_witness :
    normalizePhysInput (5 : ℚ) (-10) 10 0 (-10) 0 10 = 5 ∧
    normalizePhysInput (5 : ℚ) 0 0 0 (-10) 0 10 = 10 := by
  constructor
  · have h := (normalizePhysInput_safe 5 (-10) 10 0 (-10) 0 10).2.2.2.1
      (by norm_num) (by norm_num)
    rw [h.1]; norm_num
  · have h := (normalizePhysInput_safe 5 0 0 0 (-10) 0 10).2.1
      (by norm_num) (by norm_num)
    rw [h]

/-- C6: the expression fade weight stays in `[0,1]` after every per-frame
expression advance, and whenever the advance runs its fade-out branch down to
(or past) 0, the weight is clamped to exactly 0 and the current expression
identity is cleared. -/
theorem expressionFade_invariant (exprs : List (String × ExpressionData))
    (dt : ℚ) (st : ExprState)
    (h0 : 0 ≤ st.fadeWeight) (h1 : st.fadeWeight ≤ 1) (hdt : 0 ≤ dt) :
    (0 ≤ (advanceExpression exprs dt st).fadeWeight ∧
      (advanceExpression exprs dt st).fadeWeight ≤ 1) ∧
    (st.currentExpressionId ≠ "" →
      (mapFind exprs st.currentExpressionId).isSome = true →
      st.fadingIn = false →
      st.fadeWeight - dt * expressionFadeSpeed ≤ 0 →
      (advanceExpression exprs dt st).currentExpressionId = "" ∧
      (advanceExpression exprs dt st).fadeWeight = 0) := by
  have hspeed : (0 : ℚ) ≤ dt * expressionFadeSpeed := by
    have : (0 : ℚ) ≤ expressionFadeSpeed := by norm_num [expressionFadeSpeed]
    exact mul_nonneg hdt this
  unfold advanceExpression
  by_cases hid : st.currentExpressionId = ""
  · rw [if_pos hid]
    exact ⟨⟨h0, h1⟩, fun hne _ _ _ => absurd hid hne⟩
  · rw [if_neg hid]
    cases hfind : mapFind exprs st.currentExpressionId with
    | none =>
      exact ⟨⟨h0, h1⟩, fun _ hsome _ _ => by simp at hsome⟩
    | some e =>
      by_cases hin : st.fadingIn = true
      · rw [if_pos hin]
        refine ⟨⟨?_, ?_⟩, fun _ _ hnotin _ => by rw [hnotin] at hin; simp at hin⟩
        · dsimp only
          by_cases hcl : (1 : ℚ) ≤ st.fadeWeight + dt * expressionFadeSpeed
          · rw [if_pos hcl]; norm_num
          · rw [if_neg hcl]; linarith
        · dsimp only
          by_cases hcl : (1 : ℚ) ≤ st.fadeWeight + dt * expressionFadeSpeed
          · rw [if_pos hcl]
          · rw [if_neg hcl]; exact le_of_lt (not_le.mp hcl)
      · rw [if_neg hin]
        dsimp only
        by_cases hcl : st.fadeWeight - dt * expressionFadeSpeed ≤ 0
        · rw [if_pos hcl]
          exact ⟨⟨le_refl 0, by norm_num⟩, fun _ _ _ _ => ⟨rfl, rfl⟩⟩
        · rw [if_neg hcl]
          push_neg at hcl
          exact ⟨⟨le_of_lt hcl, by dsimp only; linarith⟩, fun _ _ _ hc => absurd hc (not_le.mpr hcl)⟩

/-- Witness for C6: a concrete fade-out step that reaches 0 clears the id. -/
theorem expressionFade_invariant_witness :
    (advanceExpression [("smile", ⟨"smile", []⟩)] 1
      ⟨"smile", 1/2, false⟩).currentExpressionId = "" ∧
    (advanceExpression [("smile", ⟨"smile", []⟩)] 1
      ⟨"smile", 1/2, false⟩).fadeWeight = 0 := by
  have h := expressionFade_invariant [("smile", ⟨"smile", []⟩)] 1
    ⟨"smile", 1/2, false⟩ (by norm_num) (by norm_num) (by norm_num)
  exact h.2 (by decide) (by decide) rfl (by norm_num [expressionFadeSpeed])

/-- C7: calling `setExpression` with the same id as the current expression
identity while it is already fading in leaves the whole expression state
(fade weight included) unchanged, for any number of repeated calls. -/
theorem setExpression_idempotent (exprs : List (String × ExpressionData))
    (st : ExprState) (exprId : String) (n : ℕ)
    (hin : st.fadingIn = true) (hid : st.currentExpressionId = exprId)
    (hne : exprId ≠ "") :
    (setExpression exprs (some exprId))^[n] st = st := by
  have hfix : setExpression exprs (some exprId) st = st := by
    unfold setExpression
    dsimp only
    rw [if_neg hne]
    cases hfind : mapFind exprs exprId with
    | none => rfl
    | some e =>
      dsimp only
      rw [if_neg (by rw [hid]; simp)]
      cases st
      simp_all
  exact Function.iterate_fixed hfix n

/-- Witness for C7 at a concrete state with three repeated calls. -/
theorem setExpression_idempotent_witness :
    (setExpression [("smile", ⟨"smile", []⟩)] (some "smile"))^[3]
      ⟨"smile", 1/2, true⟩ = ⟨"smile", 1/2, true⟩ :=
  setExpression_idempotent [("smile", ⟨"smile", []⟩)] ⟨"smile", 1/2, true⟩
    "smile" 3 rfl rfl (by decide)

/-- C3: with a model loaded and an active motion playing at priority `P`, a
start-motion request with priority strictly below `P` is rejected with the
playback state (active motion, playhead, priority) unchanged; a request with
priority at least `P` that resolves to a parsed motion with at least one
curve replaces the active motion, resets the playhead to 0 and stores the
new priority. -/
theorem startMotion_priority_gate (group : String) (st : MotionState)
    (resolved : Option MotionData) (p : ℤ)
    (hact : st.hasActiveMotion = true) :
    (p < st.activeMotionPriority →
      startMotion true (some group) st resolved p = st) ∧
    (st.activeMotionPriority ≤ p → ∀ m, resolved = some m → m.curves ≠ [] →
      startMotion true (some group) st resolved p =
        { hasActiveMotion := true, activeMotion := m, activeMotionTime := 0,
          activeMotionPriority := p }) := by
  constructor
  · intro hp
    unfold startMotion
    rw [if_neg (by simp), if_pos ⟨hact, hp⟩]
  · intro hp m hm hcurves
    unfold startMotion
    rw [if_neg (by simp), if_neg (by rintro ⟨_, hlt⟩; exact absurd hp (not_le.mpr hlt)), hm]
    dsimp only
    rw [if_neg hcurves]

/-- Witness for C3: a concrete rejection and a concrete acceptance. -/
theorem startMotion_priority_gate_witness :
    startMotion true (some "TapBody")
      ⟨true, ⟨4, true, 1/2, 1/2, []⟩, 2, 3⟩
      (some ⟨3, false, 0, 0, [⟨"ParamA", [⟨0, 0⟩]⟩]⟩) 2 =
      ⟨true, ⟨4, true, 1/2, 1/2, []⟩, 2, 3⟩ ∧
    startMotion true (some "TapBody")
      ⟨true, ⟨4, true, 1/2, 1/2, []⟩, 2, 3⟩
      (some ⟨3, false, 0, 0, [⟨"ParamA", [⟨0, 0⟩]⟩]⟩) 3 =
      ⟨true, ⟨3, false, 0, 0, [⟨"ParamA", [⟨0, 0⟩]⟩]⟩, 0, 3⟩ := by
  constructor
  · exact (startMotion_priority_gate "TapBody"
      ⟨true, ⟨4, true, 1/2, 1/2, []⟩, 2, 3⟩
      (some ⟨3, false, 0, 0, [⟨"ParamA", [⟨0, 0⟩]⟩]⟩) 2 rfl).1 (by decide)
  · exact (startMotion_priority_gate "TapBody"
      ⟨true, ⟨4, true, 1/2, 1/2, []⟩, 2, 3⟩
      (some ⟨3, false, 0, 0, [⟨"ParamA", [⟨0, 0⟩]⟩]⟩) 3 rfl).2 (by decide)
      _ rfl (by decide)

/-- C10: when no model is loaded, or the parameter id is null, or the id does
not resolve in `parameterMap`, `L2DBridge_GetParameterValue` returns `0` and
`L2DBridge_GetParameterRange` returns `1` (both are embedded as pure reads:
the C++ bodies perform no writes). -/
theorem getParameter_fallback (m : ParamModel) (paramId : Option String)
    (h : m.loaded = false ∨ paramId = none ∨
      (∀ pid, paramId = some pid → mapFind m.parameterMap pid = none)) :
    getParameterValue m paramId = 0 ∧ getParameterRange m paramId = 1 := by
  unfold getParameterValue getParameterRange
  rcases h with h | h | h
  · rw [if_pos (Or.inl h), if_pos (Or.inl h)]
    exact ⟨rfl, rfl⟩
  · rw [if_pos (Or.inr h), if_pos (Or.inr h)]
    exact ⟨rfl, rfl⟩
  · by_cases hl : m.loaded = false
    · rw [if_pos (Or.inl hl), if_pos (Or.inl hl)]
      exact ⟨rfl, rfl⟩
    cases hp : paramId with
    | none =>
      rw [if_pos (Or.inr rfl), if_pos (Or.inr rfl)]
      exact ⟨rfl, rfl⟩
    | some pid =>
      rw [if_neg (by simp [hl]), if_neg (by simp [hl])]
      have := h pid hp
      simp [this]

/-- Witness for C10: loaded model, unresolvable parameter name. -/
theorem getParameter_fallback_witness :
    getParameterValue ⟨true, [("ParamAngleX", 0)], [1/2], [-30], [30]⟩
      (some "NoSuchParam") = 0 ∧
    getParameterRange ⟨true, [("ParamAngleX", 0)], [1/2], [-30], [30]⟩
      (some "NoSuchParam") = 1 :=
  getParameter_fallback ⟨true, [("ParamAngleX", 0)], [1/2], [-30], [30]⟩
    (some "NoSuchParam")
    (Or.inr (Or.inr (fun pid hp => by
      cases hp
      decide)))

lemma applyOverride1_length (params : List ℚ) (e : ℤ × ℚ × ℚ) :
    (applyOverride1 params e).length = params.length := by
  unfold applyOverride1
  split <;> simp

lemma applyOverride1_getD_ne (params : List ℚ) (e : ℤ × ℚ × ℚ) (p : ℤ)
    (h0 : 0 ≤ p) (hne : e.1 ≠ p) :
    (applyOverride1 params e).getD p.toNat 0 = params.getD p.toNat 0 := by
  unfold applyOverride1
  split
  · next h =>
    have htn : e.1.toNat ≠ p.toNat := by omega
    simp [List.getD_eq_getElem?_getD, List.getElem?_set_ne htn]
  · rfl

lemma applyOverrides_getD_ne (ovr : List (ℤ × ℚ × ℚ)) :
    ∀ (params : List ℚ) (p : ℤ), 0 ≤ p → (∀ e ∈ ovr, e.1 ≠ p) →
      (applyOverrides ovr params).getD p.toNat 0 = params.getD p.toNat 0 := by
  induction ovr with
  | nil => intro params p _ _; rfl
  | cons e rest ih =>
    intro params p h0 hne
    have hstep : applyOverrides (e :: rest) params =
        applyOverrides rest (applyOverride1 params e) := rfl
    rw [hstep, ih (applyOverride1 params e) p h0
      (fun e2 he2 => hne e2 (List.mem_cons_of_mem e he2))]
    exact applyOverride1_getD_ne params e p h0 (hne e (List.mem_cons_self e rest))

lemma applyOverrides_getD_mem (ovr : List (ℤ × ℚ × ℚ)) :
    ∀ (params : List ℚ) (p : ℤ) (v w : ℚ),
      (ovr.map Prod.fst).Nodup → (p, v, w) ∈ ovr → 0 ≤ p →
      p < (params.length : ℤ) →
      (applyOverrides ovr params).getD p.toNat 0 =
        (if 1 ≤ w then v else params.getD p.toNat 0 * (1 - w) + v * w) := by
  induction ovr with
  | nil => intro params p v w _ hmem; simp at hmem
  | cons e rest ih =>
    intro params p v w hnd hmem h0 hlen
    have hnd' : e.1 ∉ rest.map Prod.fst ∧ (rest.map Prod.fst).Nodup := by
      rw [List.map_cons, List.nodup_cons] at hnd
      exact hnd
    have hstep : applyOverrides (e :: rest) params =
        applyOverrides rest (applyOverride1 params e) := rfl
    rcases List.mem_cons.mp hmem with he | hrest
    · -- the head entry is ours; the tail never touches index p again
      have hkeys : ∀ e2 ∈ rest, e2.1 ≠ p := by
        intro e2 he2 hcontra
        have h1 : e2.1 ∈ rest.map Prod.fst := List.mem_map_of_mem Prod.fst he2
        have h3 : p ∈ rest.map Prod.fst := hcontra ▸ h1
        have h2 : e.1 = p := by rw [← he]
        apply hnd'.1
        rw [h2]
        exact h3
      rw [hstep, applyOverrides_getD_ne rest _ p h0 hkeys, ← he]
      unfold applyOverride1
      rw [if_pos ⟨h0, hlen⟩]
      have htn : p.toNat < params.length := by omega
      simp [List.getD_eq_getElem?_getD, List.getElem?_set_eq_of_lt _ htn]
    · -- our entry sits in the tail; the head writes a different index
      have hene : e.1 ≠ p := by
        intro hcontra
        have h1 : (p, v, w).1 ∈ rest.map Prod.fst :=
          List.mem_map_of_mem Prod.fst hrest
        apply hnd'.1
        rw [hcontra]
        exact h1
      rw [hstep, ih (applyOverride1 params e) p v w
        hnd'.2 hrest h0
        (by rw [applyOverride1_length]; exact hlen),
        applyOverride1_getD_ne params e p h0 hene]

/-- C5: the external override channel — `setParameterValue` with weight below
the `0.001` threshold removes any stored override for the resolved handle
(instead of storing a near-zero one) and otherwise stores it; within the
frame, overrides are applied after the physics stage and before the final
model update, and each stored override with weight ≥ 1 sets the parameter to
the override value outright while weight < 1 replaces the parameter with the
linear interpolation of its post-physics value toward the override value. -/
theorem overrides_spec (m : ParamModel) (ovr : List (ℤ × ℚ × ℚ)) (pid : String)
    (idx : ℤ) (value weight : ℚ) :
    (m.loaded = true → mapFind m.parameterMap pid = some idx →
      weight < 1/1000 →
      setParameterValue m ovr (some pid) value weight = ovErase idx ovr) ∧
    (m.loaded = true → mapFind m.parameterMap pid = some idx →
      1/1000 ≤ weight →
      setParameterValue m ovr (some pid) value weight =
        ovInsert idx (value, weight) ovr) ∧
    (∀ motionStage exprStage physicsStage (params : List ℚ) (p : ℤ) (v w : ℚ),
      (ovr.map Prod.fst).Nodup → (p, v, w) ∈ ovr → 0 ≤ p →
      p < ((physicsStage (exprStage (motionStage params))).length : ℤ) →
      (frameParameterPass motionStage exprStage physicsStage ovr params).getD
          p.toNat 0 =
        (if 1 ≤ w then v
         else (physicsStage (exprStage (motionStage params))).getD p.toNat 0
            * (1 - w) + v * w)) := by
  refine ⟨?_, ?_, ?_⟩
  · intro hl hfind hw
    unfold setParameterValue
    rw [if_neg (by simp [hl])]
    dsimp only
    rw [hfind]
    dsimp only
    rw [if_pos hw]
  · intro hl hfind hw
    unfold setParameterValue
    rw [if_neg (by simp [hl])]
    dsimp only
    rw [hfind]
    dsimp only
    rw [if_neg (not_lt.mpr hw)]
  · intro motionStage exprStage physicsStage params p v w hnd hmem h0 hlen
    unfold frameParameterPass
    exact applyOverrides_getD_mem ovr _ p v w hnd hmem h0 hlen

/-- Witness for C5: a near-zero weight removes a stored override, and a
stored full-weight override wins over every earlier stage. -/
theorem overrides_spec_witness :
    setParameterValue ⟨true, [("ParamMouthOpenY", 0)], [1/4], [0], [1]⟩
      [((0 : ℤ), ((1 : ℚ), (3 : ℚ)/4))] (some "ParamMouthOpenY") 1 0 = [] ∧
    (frameParameterPass id id id [((0 : ℤ), ((1 : ℚ)/2, (1 : ℚ)))]
      [(1 : ℚ)/4]).getD 0 0 = 1/2 := by
  constructor
  · have h := (overrides_spec ⟨true, [("ParamMouthOpenY", 0)], [1/4], [0], [1]⟩
      [((0 : ℤ), ((1 : ℚ), (3 : ℚ)/4))] "ParamMouthOpenY" 0 1 0).1
      rfl (by decide) (by norm_num)
    rw [h]
    rfl
  · have h := (overrides_spec ⟨true, [("ParamMouthOpenY", 0)], [1/4], [0], [1]⟩
      [((0 : ℤ), ((1 : ℚ)/2, (1 : ℚ)))] "ParamMouthOpenY" 0 1 0).2.2
      id id id [(1 : ℚ)/4] 0 (1/2) 1 (by decide) (by simp) (by decide) (by decide)
    simpa using h

/-- C1 counterexample: the draw sequence claimed for render-order keys
`[3,1,2,1]`, namely `[index1, index3, index0, index2]`, cannot be produced by
the renderer's sort, because it places index 0 (key 3) before index 2
(key 2) and is therefore not ascending in render-order key. -/
theorem drawOrder_counterexample :
    ¬ validDrawOrder [3, 1, 2, 1] [1, 3, 0, 2] := by
  intro h
  exact absurd h.2 (by decide)

/-- C1 (amended): every draw sequence the renderer's sort can produce is a
permutation of the drawable indices in ascending render-order key; the
comparator looks only at the key and `std::sort` is not stable, so for keys
`[3,1,2,1]` the draw sequence is `[index1, index3, index2, index0]` up to
the (unspecified) relative order of the two key-1 drawables — under a
stable tie-break by original index it is `[index1, index3, index2, index0]`. -/
theorem drawOrder_claim (orders : List ℤ) (l : List ℕ)
    (h : validDrawOrder orders l) :
    l.Pairwise (fun a b => orders.getD a 0 ≤ orders.getD b 0) ∧
    (orders = [3, 1, 2, 1] → l = [1, 3, 2, 0] ∨ l = [3, 1, 2, 0]) := by
  refine ⟨h.2, ?_⟩
  intro horders
  subst horders
  have hmem : l ∈ (List.range 4).permutations' := List.mem_permutations'.mpr h.1
  have hall : ∀ x ∈ (List.range 4).permutations',
      x.Pairwise (fun a b =>
        ([3, 1, 2, 1] : List ℤ).getD a 0 ≤ ([3, 1, 2, 1] : List ℤ).getD b 0) →
      x = [1, 3, 2, 0] ∨ x = [3, 1, 2, 0] := by decide
  exact hall l hmem h.2

lemma opGet_natCast (ops : List ℚ) (i : ℕ) : opGet ops (i : ℤ) = ops.getD i 0 := by
  simp [opGet]

lemma opSet_natCast (ops : List ℚ) (i : ℕ) (v : ℚ) :
    opSet ops (i : ℤ) v = ops.set i v := by
  simp [opSet]

lemma poseApplyAux_cons (dt : ℚ) (dom : ℕ) (mem : PosePartInfo)
    (rest : List PosePartInfo) (i : ℕ) (ops : List ℚ) :
    poseApplyAux dt dom (mem :: rest) i ops =
      if mem.partIndex < 0 then poseApplyAux dt dom rest (i + 1) ops
      else
        poseApplyAux dt dom rest (i + 1)
          (mem.linkIndices.foldl
            (fun a li => opSet a li
              (if i = dom then poseRise dt (opGet ops mem.partIndex)
               else poseFall dt (opGet ops mem.partIndex)))
            (opSet ops mem.partIndex
              (if i = dom then poseRise dt (opGet ops mem.partIndex)
               else poseFall dt (opGet ops mem.partIndex)))) := rfl

lemma poseDomAux_cons (ops : List ℚ) (mem : PosePartInfo)
    (rest : List PosePartInfo) (i : ℕ) (maxOp : ℚ) (best : ℕ) :
    poseDomAux ops (mem :: rest) i maxOp best =
      if mem.partIndex < 0 then poseDomAux ops rest (i + 1) maxOp best
      else
        if maxOp < opGet ops mem.partIndex then
          poseDomAux ops rest (i + 1) (opGet ops mem.partIndex) i
        else poseDomAux ops rest (i + 1) maxOp best := rfl

lemma poseApplyAux_id_cons (dt : ℚ) (dom : ℕ) (s k : ℕ) (v : List ℚ) :
    poseApplyAux dt dom ((List.range' s (k + 1)).map idMember)
      s v =
    poseApplyAux dt dom ((List.range' (s + 1) k).map idMember)
      (s + 1)
      (v.set s (if s = dom then poseRise dt (v.getD s 0)
                else poseFall dt (v.getD s 0))) := by
  rw [List.range'_succ, List.map_cons, poseApplyAux_cons]
  dsimp only [idMember]
  rw [if_neg (show ¬((s : ℤ) < 0) by simp), List.foldl_nil, opGet_natCast,
    opSet_natCast]

lemma poseDomAux_id_cons (ops : List ℚ) (s k : ℕ) (maxOp : ℚ) (best : ℕ) :
    poseDomAux ops ((List.range' s (k + 1)).map idMember)
      s maxOp best =
      if maxOp < ops.getD s 0 then
        poseDomAux ops ((List.range' (s + 1) k).map idMember)
          (s + 1) (ops.getD s 0) s
      else
        poseDomAux ops ((List.range' (s + 1) k).map idMember)
          (s + 1) maxOp best := by
  rw [List.range'_succ, List.map_cons, poseDomAux_cons]
  dsimp only [idMember]
  rw [if_neg (show ¬((s : ℤ) < 0) by simp), opGet_natCast]

lemma poseApplyAux_id (dt : ℚ) (dom : ℕ) :
    ∀ (k s : ℕ) (v : List ℚ),
      (poseApplyAux dt dom ((List.range' s k).map idMember)
          s v).length = v.length ∧
      ∀ q : ℕ,
        (poseApplyAux dt dom ((List.range' s k).map idMember)
            s v).getD q 0 =
          if s ≤ q ∧ q < s + k ∧ q < v.length then
            (if q = dom then poseRise dt (v.getD q 0)
             else poseFall dt (v.getD q 0))
          else v.getD q 0 := by
  intro k
  induction k with
  | zero =>
    intro s v
    refine ⟨by simp [poseApplyAux], fun q => ?_⟩
    rw [if_neg (by omega)]
    simp [poseApplyAux]
  | succ k ih =>
    intro s v
    rw [poseApplyAux_id_cons]
    obtain ⟨ihlen, ihget⟩ :=
      ih (s + 1) (v.set s (if s = dom then poseRise dt (v.getD s 0)
        else poseFall dt (v.getD s 0)))
    refine ⟨by rw [ihlen]; simp, fun q => ?_⟩
    rw [ihget q]
    by_cases hq : q = s
    · subst hq
      rw [if_neg (by omega)]
      rcases Nat.lt_or_ge q v.length with hlt | hge
      · have hc : q ≤ q ∧ q < q + (k + 1) ∧ q < v.length :=
          ⟨le_refl q, by omega, hlt⟩
        rw [if_pos hc]
        simp [List.getD_eq_getElem?_getD, List.getElem?_set_eq_of_lt _ hlt]
      · have hc : ¬(q ≤ q ∧ q < q + (k + 1) ∧ q < v.length) := by omega
        rw [if_neg hc, List.set_eq_of_length_le hge]
    · have hset : ∀ d0 : ℚ, (v.set s (if s = dom then poseRise dt (v.getD s 0)
          else poseFall dt (v.getD s 0))).getD q d0 = v.getD q d0 := by
        intro d0
        simp [List.getD_eq_getElem?_getD,
          List.getElem?_set_ne (show s ≠ q from fun h => hq h.symm)]
      rw [hset, List.length_set]
      have hcond : (s + 1 ≤ q ∧ q < s + 1 + k ∧ q < v.length) ↔
          (s ≤ q ∧ q < s + (k + 1) ∧ q < v.length) := by omega
      rw [if_congr hcond rfl rfl]

lemma poseDomAux_fix (ops : List ℚ) :
    ∀ (k s : ℕ) (m0 : ℚ) (b0 : ℕ),
      (∀ i, s ≤ i → i < s + k → ops.getD i 0 ≤ m0) →
      poseDomAux ops ((List.range' s k).map idMember)
        s m0 b0 = b0 := by
  intro k
  induction k with
  | zero => intro s m0 b0 _; simp [poseDomAux]
  | succ k ih =>
    intro s m0 b0 hall
    rw [poseDomAux_id_cons,
      if_neg (not_lt.mpr (hall s (le_refl s) (by omega)))]
    exact ih (s + 1) m0 b0 (fun i h1 h2 => hall i (by omega) (by omega))

lemma poseDomAux_win (ops : List ℚ) :
    ∀ (k s : ℕ) (m0 : ℚ) (b0 j : ℕ),
      s ≤ j → j < s + k → m0 < ops.getD j 0 →
      (∀ i, s ≤ i → i < j → ops.getD i 0 < ops.getD j 0) →
      (∀ i, j ≤ i → i < s + k → ops.getD i 0 ≤ ops.getD j 0) →
      poseDomAux ops ((List.range' s k).map idMember)
        s m0 b0 = j := by
  intro k
  induction k with
  | zero => intro s m0 b0 j h1 h2 _ _ _; omega
  | succ k ih =>
    intro s m0 b0 j hsj hjk hm0 hbefore hafter
    rw [poseDomAux_id_cons]
    rcases eq_or_lt_of_le hsj with he | hlt
    · subst he
      rw [if_pos hm0]
      exact poseDomAux_fix ops k (s + 1) (ops.getD s 0) s
        (fun i h1 h2 => hafter i (by omega) (by omega))
    · by_cases hc : m0 < ops.getD s 0
      · rw [if_pos hc]
        exact ih (s + 1) (ops.getD s 0) s j (by omega) (by omega)
          (hbefore s (le_refl s) hlt)
          (fun i u1 u2 => hbefore i (by omega) u2)
          (fun i u1 u2 => hafter i u1 (by omega))
      · rw [if_neg hc]
        exact ih (s + 1) m0 b0 j (by omega) (by omega) hm0
          (fun i u1 u2 => hbefore i (by omega) u2)
          (fun i u1 u2 => hafter i u1 (by omega))

lemma poseDomAux_spec (ops : List ℚ) :
    ∀ (k s : ℕ) (m0 : ℚ) (b0 : ℕ),
      (poseDomAux ops ((List.range' s k).map idMember)
          s m0 b0 = b0 ∧
        ∀ i, s ≤ i → i < s + k → ops.getD i 0 ≤ m0) ∨
      (∃ r, poseDomAux ops ((List.range' s k).map idMember)
          s m0 b0 = r ∧
        s ≤ r ∧ r < s + k ∧ m0 < ops.getD r 0 ∧
        (∀ i, s ≤ i → i < r → ops.getD i 0 < ops.getD r 0) ∧
        (∀ i, s ≤ i → i < s + k → ops.getD i 0 ≤ ops.getD r 0)) := by
  intro k
  induction k with
  | zero =>
    intro s m0 b0
    left
    exact ⟨by simp [poseDomAux], fun i h1 h2 => by omega⟩
  | succ k ih =>
    intro s m0 b0
    rw [poseDomAux_id_cons]
    by_cases hc : m0 < ops.getD s 0
    · rw [if_pos hc]
      rcases ih (s + 1) (ops.getD s 0) s with ⟨heq, hall⟩ |
        ⟨r, hreq, hr1, hr2, hr3, hr4, hr5⟩
      · right
        refine ⟨s, heq, le_refl s, by omega, hc,
          fun i h1 h2 => (by omega : False).elim, ?_⟩
        intro i h1 h2
        rcases eq_or_lt_of_le h1 with he | hlt
        · rw [← he]
        · exact hall i (by omega) (by omega)
      · right
        refine ⟨r, hreq, by omega, by omega, lt_trans hc hr3, ?_, ?_⟩
        · intro i h1 h2
          rcases eq_or_lt_of_le h1 with he | hlt
          · rw [← he]; exact hr3
          · exact hr4 i (by omega) h2
        · intro i h1 h2
          rcases eq_or_lt_of_le h1 with he | hlt
          · rw [← he]; exact le_of_lt hr3
          · exact hr5 i (by omega) (by omega)
    · rw [if_neg hc]
      rcases ih (s + 1) m0 b0 with ⟨heq, hall⟩ |
        ⟨r, hreq, hr1, hr2, hr3, hr4, hr5⟩
      · left
        refine ⟨heq, fun i h1 h2 => ?_⟩
        rcases eq_or_lt_of_le h1 with he | hlt
        · rw [← he]; exact not_lt.mp hc
        · exact hall i (by omega) (by omega)
      · right
        refine ⟨r, hreq, by omega, by omega, hr3, ?_, ?_⟩
        · intro i h1 h2
          rcases eq_or_lt_of_le h1 with he | hlt
          · rw [← he]; exact lt_of_le_of_lt (not_lt.mp hc) hr3
          · exact hr4 i (by omega) h2
        · intro i h1 h2
          rcases eq_or_lt_of_le h1 with he | hlt
          · rw [← he]; exact le_trans (not_lt.mp hc) (le_of_lt hr3)
          · exact hr5 i (by omega) (by omega)

lemma poseRise_formula (dt o : ℚ) (hd : 0 ≤ dt * poseFadeSpeed) (k : ℕ) :
    poseRise dt (if 1 < o + (k : ℚ) * (dt * poseFadeSpeed) then 1
                 else o + (k : ℚ) * (dt * poseFadeSpeed)) =
      (if 1 < o + ((k : ℚ) + 1) * (dt * poseFadeSpeed) then 1
       else o + ((k : ℚ) + 1) * (dt * poseFadeSpeed)) := by
  unfold poseRise
  have hsplit : o + ((k : ℚ) + 1) * (dt * poseFadeSpeed) =
      (o + (k : ℚ) * (dt * poseFadeSpeed)) + dt * poseFadeSpeed := by ring
  rw [hsplit]
  by_cases h1 : 1 < o + (k : ℚ) * (dt * poseFadeSpeed)
  · rw [if_pos h1]
    have hrhs : 1 < (o + (k : ℚ) * (dt * poseFadeSpeed)) + dt * poseFadeSpeed := by
      linarith
    rw [if_pos hrhs]
    by_cases h2 : (1 : ℚ) < 1 + dt * poseFadeSpeed
    · rw [if_pos h2]
    · rw [if_neg h2]
      linarith
  · rw [if_neg h1]

lemma poseFall_formula (dt o : ℚ) (hd : 0 ≤ dt * poseFadeSpeed) (k : ℕ) :
    poseFall dt (if o - (k : ℚ) * (dt * poseFadeSpeed) < 0 then 0
                 else o - (k : ℚ) * (dt * poseFadeSpeed)) =
      (if o - ((k : ℚ) + 1) * (dt * poseFadeSpeed) < 0 then 0
       else o - ((k : ℚ) + 1) * (dt * poseFadeSpeed)) := by
  unfold poseFall
  have hsplit : o - ((k : ℚ) + 1) * (dt * poseFadeSpeed) =
      (o - (k : ℚ) * (dt * poseFadeSpeed)) - dt * poseFadeSpeed := by ring
  rw [hsplit]
  by_cases h1 : o - (k : ℚ) * (dt * poseFadeSpeed) < 0
  · rw [if_pos h1]
    have hrhs : (o - (k : ℚ) * (dt * poseFadeSpeed)) - dt * poseFadeSpeed < 0 := by
      linarith
    rw [if_pos hrhs]
    by_cases h2 : (0 : ℚ) - dt * poseFadeSpeed < 0
    · rw [if_pos h2]
    · rw [if_neg h2]
      linarith
  · rw [if_neg h1]

lemma ite_one_of_ge (t : ℚ) (h : 1 ≤ t) : (if 1 < t then 1 else t) = 1 := by
  split <;> linarith

lemma ite_zero_of_le (t : ℚ) (h : t ≤ 0) : (if t < 0 then 0 else t) = 0 := by
  split <;> linarith

/-- C8: for the per-group pose crossfade with a fully resolved group whose
`n` members map to part indices `0..n-1`, any initial member opacities in
`[0,1]` and any constant `dt > 0`: after finitely many frames the dominant
member's opacity is exactly 1 and every other member's opacity is exactly 0
(opacities move at `POSE_FADE_SPEED` per second, clamped to `[0,1]`; the
dominant member is the frame-initial first strict argmax and stays dominant
on every subsequent frame). -/
theorem poseConvergence (dt : ℚ) (ops : List ℚ) (hdt : 0 < dt)
    (hops : ∀ o ∈ ops, 0 ≤ o ∧ o ≤ 1) :
    ∃ N : ℕ, ∀ n, N ≤ n →
      (updatePoseGroup dt (idGroup ops.length))^[n] ops =
        poseTarget (poseDominant (idGroup ops.length) ops) ops.length := by
  have hdpos : 0 < dt * poseFadeSpeed := by
    have h5 : (0 : ℚ) < poseFadeSpeed := by norm_num [poseFadeSpeed]
    exact mul_pos hdt h5
  have hidg : idGroup ops.length = (List.range' 0 ops.length).map idMember := by
    unfold idGroup
    rw [List.range_eq_range']
  have hdom_eq : ∀ w : List ℚ, poseDominant (idGroup ops.length) w =
      poseDomAux w ((List.range' 0 ops.length).map idMember) 0 0 0 := by
    intro w
    unfold poseDominant
    rw [hidg]
  have hbounds : ∀ q, q < ops.length → 0 ≤ ops.getD q 0 ∧ ops.getD q 0 ≤ 1 := by
    intro q hq
    have hgd : ops.getD q 0 = ops[q] := by
      simp [List.getD_eq_getElem?_getD, List.getElem?_eq_getElem hq]
    rw [hgd]
    exact hops _ (List.getElem_mem hq)
  have hstep : ∀ v : List ℚ, v.length = ops.length →
      (updatePoseGroup dt (idGroup ops.length) v).length = ops.length ∧
      ∀ q, q < ops.length →
        (updatePoseGroup dt (idGroup ops.length) v).getD q 0 =
          (if q = poseDominant (idGroup ops.length) v
           then poseRise dt (v.getD q 0) else poseFall dt (v.getD q 0)) := by
    intro v hv
    unfold updatePoseGroup
    rw [hidg]
    have hpd : poseDominant ((List.range' 0 ops.length).map idMember) v =
        poseDominant (idGroup ops.length) v := by rw [hidg]
    rw [hpd]
    obtain ⟨hlen, hget⟩ :=
      poseApplyAux_id dt (poseDominant (idGroup ops.length) v) ops.length 0 v
    constructor
    · rw [hlen, hv]
    · intro q hq
      rw [hget q, if_pos ⟨Nat.zero_le q, by omega, by omega⟩]
  have hdomF : ∀ (k : ℕ) (v : List ℚ), v.length = ops.length →
      (∀ q, q < ops.length → v.getD q 0 =
        poseFormula ops (poseDominant (idGroup ops.length) ops)
          (dt * poseFadeSpeed) k q) →
      0 < ops.length →
      poseDominant (idGroup ops.length) v =
        poseDominant (idGroup ops.length) ops := by
    intro k v hv hvF hm
    rw [hdom_eq v]
    rcases poseDomAux_spec ops ops.length 0 0 0 with ⟨heq0, hall⟩ |
      ⟨r, hreq, hr1, hr2, hr3, hr4, hr5⟩
    · -- every opacity is ≤ 0, hence (bounds) 0; the dominant index is 0
      have hj0 : poseDominant (idGroup ops.length) ops = 0 := by
        rw [hdom_eq ops]
        exact heq0
      rw [hj0] at hvF ⊢
      have hz : ∀ i, i < ops.length → ops.getD i 0 = 0 := by
        intro i hi
        exact le_antisymm (hall i (by omega) (by omega)) (hbounds i hi).1
      by_cases hk : k = 0
      · subst hk
        apply poseDomAux_fix
        intro i h1 h2
        rw [hvF i (by omega)]
        unfold poseFormula
        rw [hz i (by omega)]
        push_cast
        split <;> norm_num
      · refine poseDomAux_win v ops.length 0 0 0 0 (le_refl 0) (by omega)
          ?_ ?_ ?_
        · rw [hvF 0 hm]
          unfold poseFormula
          rw [if_pos rfl, hz 0 hm]
          have hkd : 0 < (k : ℚ) * (dt * poseFadeSpeed) := by
            have hk0 : (0 : ℚ) < (k : ℚ) := by
              exact_mod_cast Nat.pos_of_ne_zero hk
            exact mul_pos hk0 hdpos
          split <;> linarith
        · intro i h1 h2
          exact absurd h2 (Nat.not_lt_zero i)
        · intro i h1 h2
          by_cases hi0 : i = 0
          · rw [hi0]
          · rw [hvF i (by omega), hvF 0 hm]
            unfold poseFormula
            rw [if_neg hi0, if_pos rfl, hz i (by omega), hz 0 hm]
            have hkd0 : 0 ≤ (k : ℚ) * (dt * poseFadeSpeed) := by positivity
            split <;> split <;> linarith
    · -- a strictly positive maximum exists at index r (the dominant index)
      have hjr : poseDominant (idGroup ops.length) ops = r := by
        rw [hdom_eq ops]
        exact hreq
      rw [hjr] at hvF ⊢
      have hkd0 : 0 ≤ (k : ℚ) * (dt * poseFadeSpeed) := by positivity
      refine poseDomAux_win v ops.length 0 0 0 r (Nat.zero_le r) (by omega)
        ?_ ?_ ?_
      · rw [hvF r (by omega)]
        unfold poseFormula
        rw [if_pos rfl]
        split <;> linarith
      · intro i h1 h2
        rw [hvF i (by omega), hvF r (by omega)]
        unfold poseFormula
        rw [if_neg (by omega), if_pos rfl]
        have hik := hr4 i (by omega) h2
        have h0i := (hbounds i (by omega)).1
        have h1r := (hbounds r (by omega)).2
        split <;> split <;> linarith
      · intro i h1 h2
        by_cases hir : i = r
        · rw [hir]
        · rw [hvF i (by omega), hvF r (by omega)]
          unfold poseFormula
          rw [if_neg hir, if_pos rfl]
          have hik := hr5 i (by omega) (by omega)
          have h0i := (hbounds i (by omega)).1
          have h1r := (hbounds r (by omega)).2
          split <;> split <;> linarith
  have hiter : ∀ k : ℕ,
      ((updatePoseGroup dt (idGroup ops.length))^[k] ops).length = ops.length ∧
      ∀ q, q < ops.length →
        ((updatePoseGroup dt (idGroup ops.length))^[k] ops).getD q 0 =
          poseFormula ops (poseDominant (idGroup ops.length) ops)
            (dt * poseFadeSpeed) k q := by
    intro k
    induction k with
    | zero =>
      refine ⟨rfl, fun q hq => ?_⟩
      simp only [Function.iterate_zero, id_eq]
      unfold poseFormula
      push_cast
      rw [zero_mul, add_zero, sub_zero]
      obtain ⟨hq0, hq1⟩ := hbounds q hq
      by_cases hqj : q = poseDominant (idGroup ops.length) ops
      · rw [if_pos hqj, if_neg (not_lt.mpr hq1)]
      · rw [if_neg hqj, if_neg (not_lt.mpr hq0)]
    | succ k ih =>
      obtain ⟨ihlen, ihget⟩ := ih
      rw [Function.iterate_succ_apply']
      obtain ⟨hslen, hsget⟩ := hstep _ ihlen
      refine ⟨hslen, fun q hq => ?_⟩
      rw [hsget q hq]
      have hdom := hdomF k _ ihlen ihget (by omega)
      rw [hdom]
      by_cases hqj : q = poseDominant (idGroup ops.length) ops
      · rw [if_pos hqj, ihget q hq]
        unfold poseFormula
        rw [if_pos hqj, if_pos hqj, Nat.cast_succ]
        exact poseRise_formula dt (ops.getD q 0) (le_of_lt hdpos) k
      · rw [if_neg hqj, ihget q hq]
        unfold poseFormula
        rw [if_neg hqj, if_neg hqj, Nat.cast_succ]
        exact poseFall_formula dt (ops.getD q 0) (le_of_lt hdpos) k
  refine ⟨Nat.ceil ((1 : ℚ) / (dt * poseFadeSpeed)), ?_⟩
  intro n hn
  have hnd : 1 ≤ (n : ℚ) * (dt * poseFadeSpeed) := by
    have hceil : (1 : ℚ) / (dt * poseFadeSpeed) ≤
        (Nat.ceil ((1 : ℚ) / (dt * poseFadeSpeed)) : ℚ) := Nat.le_ceil _
    have hcast : ((Nat.ceil ((1 : ℚ) / (dt * poseFadeSpeed)) : ℕ) : ℚ) ≤
        (n : ℚ) := by exact_mod_cast hn
    have h1 : (1 : ℚ) / (dt * poseFadeSpeed) ≤ (n : ℚ) :=
      le_trans hceil hcast
    rw [div_le_iff₀ hdpos] at h1
    linarith
  obtain ⟨hlen, hget⟩ := hiter n
  apply List.ext_getElem
  · rw [hlen]
    unfold poseTarget
    simp
  · intro q h1 h2
    have hq : q < ops.length := by rw [hlen] at h1; exact h1
    have hgd : ((updatePoseGroup dt (idGroup ops.length))^[n] ops)[q] =
        ((updatePoseGroup dt (idGroup ops.length))^[n] ops).getD q 0 := by
      simp [List.getD_eq_getElem?_getD, List.getElem?_eq_getElem h1]
    rw [hgd, hget q hq]
    have htgt : (poseTarget (poseDominant (idGroup ops.length) ops)
        ops.length)[q] =
        (if q = poseDominant (idGroup ops.length) ops then (1 : ℚ) else 0) := by
      unfold poseTarget
      simp
    rw [htgt]
    unfold poseFormula
    obtain ⟨hq0, hq1⟩ := hbounds q hq
    by_cases hqj : q = poseDominant (idGroup ops.length) ops
    · rw [if_pos hqj, if_pos hqj]
      apply ite_one_of_ge
      linarith
    · rw [if_neg hqj, if_neg hqj]
      apply ite_zero_of_le
      linarith

/-- Witness for C8 at a concrete group of three parts. -/
theorem poseConvergence_witness :
    ∃ N : ℕ, ∀ n, N ≤ n →
      (updatePoseGroup (1/10) (idGroup 3))^[n] [1/2, 1/2, 0] =
        poseTarget (poseDominant (idGroup 3) [1/2, 1/2, 0]) 3 :=
  poseConvergence (1/10) [1/2, 1/2, 0] (by norm_num)
    (by
      intro o ho
      simp only [List.mem_cons, List.not_mem_nil, or_false] at ho
      rcases ho with h | h | h <;> subst h <;> norm_num)

/-- Witness for C1's amended theorem: the stable tie-break sequence is a
valid sort result, and the theorem applies to it. -/
theorem drawOrder_claim_witness :
    validDrawOrder [3, 1, 2, 1] [1, 3, 2, 0] ∧
    ([1, 3, 2, 0] = [1, 3, 2, 0] ∨ [1, 3, 2, 0] = [3, 1, 2, 0]) :=
  ⟨⟨by decide, by decide⟩,
    (drawOrder_claim [3, 1, 2, 1] [1, 3, 2, 0] ⟨by decide, by decide⟩).2 rfl⟩

lemma normRadian_zero : normRadian 0 = 0 := by
  have hpi := Real.pi_pos
  unfold normRadian
  rw [if_neg (show ¬((0 : ℝ) < -Real.pi) by rw [not_lt]; linarith)]
  rw [if_neg (show ¬(Real.pi < (0 : ℝ)) by rw [not_lt]; linarith)]

lemma directionToRadian_self (v : PhysVec2) : directionToRadian v v = 0 := by
  unfold directionToRadian
  rw [sub_self]
  exact normRadian_zero

lemma updateChain_cons (w g : PhysVec2) (dt : ℝ) (prev : PhysVec2)
    (p : PhysParticle) (ps : List PhysParticle) :
    updateChain w g dt prev (p :: ps) =
      updateParticle w g dt prev p ::
        updateChain w g dt (updateParticle w g dt prev p).position ps := rfl

lemma updateChain_parent (w g : PhysVec2) (dt : ℝ) :
    ∀ (ps : List PhysParticle) (prev : PhysVec2) (i : ℕ), i + 1 < ps.length →
      (updateChain w g dt prev ps).getD (i + 1) pDefault =
        updateParticle w g dt
          ((updateChain w g dt prev ps).getD i pDefault).position
          (ps.getD (i + 1) pDefault) := by
  intro ps
  induction ps with
  | nil => intro prev i hi; simp at hi
  | cons p ps ih =>
    intro prev i hi
    cases ps with
    | nil => simp at hi
    | cons q ps2 =>
      cases i with
      | zero =>
        simp only [updateChain_cons, List.getD_cons_succ, List.getD_cons_zero]
      | succ j =>
        have hj : j + 1 < (q :: ps2).length := by
          simp only [List.length_cons] at hi ⊢
          omega
        have hstep := ih (updateParticle w g dt prev p).position j hj
        simp only [updateChain_cons, List.getD_cons_succ] at hstep ⊢
        exact hstep

lemma stepSubRig_parent (pr : PhysParams) (w : PhysVec2) (dt : ℝ)
    (sub : PhysSubRig) (i : ℕ) (hi : i + 1 < sub.particles.length) :
    (stepSubRigParticles pr w dt sub).getD (i + 1) pDefault =
      updateParticle w (subRigGrav pr sub) dt
        ((stepSubRigParticles pr w dt sub).getD i pDefault).position
        (sub.particles.getD (i + 1) pDefault) := by
  cases hps : sub.particles with
  | nil => rw [hps] at hi; simp at hi
  | cons root rest =>
    rw [hps] at hi
    unfold stepSubRigParticles
    rw [hps]
    dsimp only
    cases i with
    | zero =>
      cases rest with
      | nil => simp at hi
      | cons q rest2 =>
        simp only [updateChain_cons, List.getD_cons_succ, List.getD_cons_zero]
    | succ j =>
      cases rest with
      | nil => simp at hi
      | cons q rest2 =>
        have hj : j + 1 < (q :: rest2).length := by
          simp only [List.length_cons] at hi ⊢
          omega
        have hpar := updateChain_parent w (subRigGrav pr sub) dt (q :: rest2)
          (⟨(aggregateInputs pr sub).2, root.position.y⟩ : PhysVec2) j hj
        simp only [List.getD_cons_succ]
        exact hpar

lemma updateParticle_dist (w g : PhysVec2) (dt : ℝ) (prev : PhysVec2)
    (p : PhysParticle) (hrad : 0 ≤ p.radius)
    (hdist : 1/10000 < preDist w g dt prev p)
    (hsnap : (projectedPos w g dt prev p).x = 0 ∨
      1/1000 ≤ |(projectedPos w g dt prev p).x|) :
    physDist (updateParticle w g dt prev p).position prev = p.radius := by
  have hdpos : 0 < preDist w g dt prev p := lt_trans (by norm_num) hdist
  have hppx : (if |(projectedPos w g dt prev p).x| < 1/1000 then (0 : ℝ)
      else (projectedPos w g dt prev p).x) = (projectedPos w g dt prev p).x := by
    rcases hsnap with h | h
    · rw [h]
      simp
    · rw [if_neg (not_lt.mpr h)]
  have hpos : (updateParticle w g dt prev p).position =
      projectedPos w g dt prev p := by
    unfold updateParticle
    dsimp only
    rw [hppx]
  rw [hpos]
  unfold projectedPos
  rw [if_pos hdist]
  unfold physDist
  dsimp only
  set dx := (integStep w g dt prev p).x - prev.x with hdx
  set dy := (integStep w g dt prev p).y - prev.y with hdy
  set dist := preDist w g dt prev p with hdd
  have harith : (prev.x + dx / dist * p.radius - prev.x) *
        (prev.x + dx / dist * p.radius - prev.x) +
      (prev.y + dy / dist * p.radius - prev.y) *
        (prev.y + dy / dist * p.radius - prev.y) =
      (p.radius / dist) ^ 2 * (dx * dx + dy * dy) := by ring
  rw [harith, Real.sqrt_mul (sq_nonneg _),
    Real.sqrt_sq (div_nonneg hrad (le_of_lt hdpos))]
  have hsq : Real.sqrt (dx * dx + dy * dy) = dist := by
    rw [hdd, hdx, hdy]
    rfl
  rw [hsq, div_mul_cancel₀ _ (ne_of_gt hdpos)]

/-- C2 (amended): after one physics step of a sub-rig, every non-root
particle whose post-integration distance from its (already updated) parent
exceeds the degeneracy threshold `0.0001`, and whose re-projected x position
is not altered by the near-zero snap, ends at distance exactly equal to its
configured (nonnegative) radius from its parent.  When the post-integration
distance is at most `0.0001` the position is left unprojected (the
degeneracy fallback of the source), and the constraint can fail — see the
counterexample. -/
theorem particleDistance_amended (pr : PhysParams) (w : PhysVec2) (dt : ℝ)
    (sub : PhysSubRig) (i : ℕ) (hi : i + 1 < sub.particles.length)
    (hrad : 0 ≤ (sub.particles.getD (i + 1) pDefault).radius)
    (hdist : 1/10000 < preDist w (subRigGrav pr sub) dt
      ((stepSubRigParticles pr w dt sub).getD i pDefault).position
      (sub.particles.getD (i + 1) pDefault))
    (hsnap : (projectedPos w (subRigGrav pr sub) dt
        ((stepSubRigParticles pr w dt sub).getD i pDefault).position
        (sub.particles.getD (i + 1) pDefault)).x = 0 ∨
      1/1000 ≤ |(projectedPos w (subRigGrav pr sub) dt
        ((stepSubRigParticles pr w dt sub).getD i pDefault).position
        (sub.particles.getD (i + 1) pDefault)).x|) :
    physDist
      ((stepSubRigParticles pr w dt sub).getD (i + 1) pDefault).position
      ((stepSubRigParticles pr w dt sub).getD i pDefault).position =
      (sub.particles.getD (i + 1) pDefault).radius := by
  rw [stepSubRig_parent pr w dt sub i hi]
  exact updateParticle_dist _ _ _ _ _ hrad hdist hsnap

/-- Witness for C2's amended theorem: a resting two-particle chain keeps its
particle at distance exactly `radius = 1` from the root. -/
theorem particleDistance_amended_witness :
    physDist
      ((stepSubRigParticles wParams ⟨0, 0⟩ (1/30) wSub).getD 1 pDefault).position
      ((stepSubRigParticles wParams ⟨0, 0⟩ (1/30) wSub).getD 0 pDefault).position
      = 1 := by
  have hagg : aggregateInputs wParams wSub = (0, 0) := rfl
  have hg : subRigGrav wParams wSub = ⟨0, 1⟩ := by
    unfold subRigGrav
    rw [hagg]
    norm_num [Real.sin_zero, Real.cos_zero]
  have h0 : ((stepSubRigParticles wParams ⟨0, 0⟩ (1/30) wSub).getD 0
      pDefault).position = ⟨0, 0⟩ := rfl
  have hp1 : wSub.particles.getD (0 + 1) pDefault = wP1 := rfl
  have hint : integStep ⟨0, 0⟩ ⟨0, 1⟩ (1/30) ⟨0, 0⟩ wP1 = ⟨0, 1⟩ := by
    unfold integStep wP1
    dsimp only
    rw [show directionToRadian ⟨0, 1⟩ ⟨0, 1⟩ = 0 from directionToRadian_self _]
    norm_num [Real.cos_zero, Real.sin_zero]
  have hpre : preDist ⟨0, 0⟩ ⟨0, 1⟩ (1/30) ⟨0, 0⟩ wP1 = 1 := by
    unfold preDist
    rw [hint]
    norm_num [Real.sqrt_one]
  have hproj : projectedPos ⟨0, 0⟩ ⟨0, 1⟩ (1/30) ⟨0, 0⟩ wP1 = ⟨0, 1⟩ := by
    unfold projectedPos
    rw [hpre, if_pos (show (1 : ℝ)/10000 < 1 by norm_num), hint]
    norm_num [wP1]
  have happ := particleDistance_amended wParams ⟨0, 0⟩ (1/30) wSub 0
    (by norm_num [wSub])
    (by rw [hp1]; norm_num [wP1])
    (by rw [hg, h0, hp1, hpre]; norm_num)
    (by rw [hg, h0, hp1, hproj]; left; rfl)
  rw [hp1] at happ
  rw [show wP1.radius = 1 from rfl] at happ
  exact happ

/-- C2 counterexample: starting from a state that satisfies the distance
constraint (particle at distance `radius = 1` above the root) with downward
velocity `(0, -2)`, one `updatePhysics` step lands the particle exactly on
its parent; the degenerate-distance guard (`dist > 0.0001`) skips the
re-projection, so after the step the distance to the parent is `0` while the
configured radius is `1` — not equal within any floating-point tolerance. -/
theorem particleDistance_counterexample :
    physDist
      ((stepSubRigParticles wParams ⟨0, 0⟩ (1/30) cSub).getD 1 pDefault).position
      ((stepSubRigParticles wParams ⟨0, 0⟩ (1/30) cSub).getD 0 pDefault).position
      = 0 ∧
    (cSub.particles.getD 1 pDefault).radius = 1 := by
  have hagg : aggregateInputs wParams cSub = (0, 0) := rfl
  have hg : subRigGrav wParams cSub = ⟨0, 1⟩ := by
    unfold subRigGrav
    rw [hagg]
    norm_num [Real.sin_zero, Real.cos_zero]
  have hint : integStep ⟨0, 0⟩ ⟨0, 1⟩ (1/30) ⟨0, 0⟩ cP1 = ⟨0, 0⟩ := by
    unfold integStep cP1
    dsimp only
    rw [show directionToRadian ⟨0, 1⟩ ⟨0, 1⟩ = 0 from directionToRadian_self _]
    norm_num [Real.cos_zero, Real.sin_zero]
  have hpre : preDist ⟨0, 0⟩ ⟨0, 1⟩ (1/30) ⟨0, 0⟩ cP1 = 0 := by
    unfold preDist
    rw [hint]
    norm_num [Real.sqrt_zero]
  have hproj : projectedPos ⟨0, 0⟩ ⟨0, 1⟩ (1/30) ⟨0, 0⟩ cP1 = ⟨0, 0⟩ := by
    unfold projectedPos
    rw [hpre, if_neg (show ¬((1 : ℝ)/10000 < 0) by norm_num), hint]
  have hup : (updateParticle ⟨0, 0⟩ ⟨0, 1⟩ (1/30) ⟨0, 0⟩ cP1).position
      = ⟨0, 0⟩ := by
    unfold updateParticle
    dsimp only
    rw [hproj]
    norm_num
  have h0 : ((stepSubRigParticles wParams ⟨0, 0⟩ (1/30) cSub).getD 0
      pDefault).position = ⟨0, 0⟩ := rfl
  have h1 : ((stepSubRigParticles wParams ⟨0, 0⟩ (1/30) cSub).getD (0 + 1)
      pDefault).position = ⟨0, 0⟩ := by
    rw [stepSubRig_parent wParams ⟨0, 0⟩ (1/30) cSub 0 (by norm_num [cSub])]
    rw [hg, h0, show cSub.particles.getD (0 + 1) pDefault = cP1 from rfl, hup]
  constructor
  · show physDist
      ((stepSubRigParticles wParams ⟨0, 0⟩ (1/30) cSub).getD (0 + 1)
        pDefault).position
      ((stepSubRigParticles wParams ⟨0, 0⟩ (1/30) cSub).getD 0
        pDefault).position = 0
    rw [h1, h0]
    unfold physDist
    norm_num [Real.sqrt_zero]
  · rfl

end Live2D
